import Mathlib

/-!
Verification of the Outlook MCP server core (outlook_client.py, email_formatter.py,
outlook_mcp.py) against its natural-language specification.

The Python code is shallowly embedded: dict-shaped records become structures whose
slots distinguish an absent key, a key bound to None, and a typed value; Python
exceptions become Except results; the COM automation session is an explicit world
value and every COM call is recorded in an event trace.
-/

namespace OutlookMcp

/-! ## Python value modelling -/

/-- A slot of a Python dict: the key may be absent, bound to None, or bound to a value. -/
inductive Pyv (α : Type) where
  | absent
  | pynone
  | val (a : α)
deriving Repr, DecidableEq

/-- Python `d.get(k, default)`: an absent key gives the default, a None value stays
None.  The result is a Python value, so it is an `Option` (none = Python None). -/
def Pyv.getD {α : Type} : Pyv α → α → Option α
  | .absent, d => some d
  | .pynone, _ => none
  | .val a, _ => some a

/-- Python `d.get(k)` with no default: absent and None both give None. -/
def Pyv.get? {α : Type} : Pyv α → Option α
  | .absent => none
  | .pynone => none
  | .val a => some a

/-- Python `d[k]`: an absent key raises KeyError. -/
def Pyv.index {α : Type} : Pyv α → Except String (Option α)
  | .absent => .error "KeyError"
  | .pynone => .ok none
  | .val a => .ok (some a)

/-- Truthiness of a maybe-None string (None and the empty string are falsy). -/
def truthyS (o : Option String) : Bool :=
  match o with
  | none => false
  | some s => s ≠ ""

/-- Calling a str method on a maybe-None value: None raises AttributeError. -/
def pyStrV (o : Option String) : Except String String :=
  match o with
  | none => .error "AttributeError: NoneType has no str methods"
  | some s => .ok s

/-- Python `a or b` for maybe-None strings (falsy left operand selects the right). -/
def pyOrStr (a b : Option String) : Option String :=
  match a with
  | none => b
  | some s => if s = "" then b else some s

/-- Does the second character list start with the first? -/
def startsWithL (needle : List Char) : List Char → Bool :=
  fun hay =>
    match needle, hay with
    | [], _ => true
    | _ :: _, [] => false
    | a :: as, b :: bs => a = b && startsWithL as bs

/-- Is the first character list a contiguous subsequence of the second? -/
def containsSeq (needle : List Char) : List Char → Bool
  | [] => needle.isEmpty
  | c :: rest => startsWithL needle (c :: rest) || containsSeq needle rest

/-- Python `needle in hay` for strings (substring containment). -/
def pyInStr (needle hay : String) : Bool :=
  containsSeq needle.toList hay.toList

/-- Python str.lower (character-wise, as kernel-reducible list map). -/
def pyLower (s : String) : String :=
  String.mk (s.toList.map Char.toLower)

def trimL (l : List Char) : List Char :=
  ((l.dropWhile Char.isWhitespace).reverse.dropWhile Char.isWhitespace).reverse

/-- Python str.strip(). -/
def pyStrip (s : String) : String :=
  String.mk (trimL s.toList)

/-- Python s.startswith(p). -/
def pyStartsWith (s p : String) : Bool :=
  startsWithL p.toList s.toList

/-- Python s[n:] (character slicing). -/
def pyDrop (s : String) (n : Nat) : String :=
  String.mk (s.toList.drop n)

/-- Python s[:n] for a nonnegative bound. -/
def pyTake (s : String) (n : Nat) : String :=
  String.mk (s.toList.take n)

/-- Python str.replace on character lists: left to right, non-overlapping. -/
def replaceSeq (needle repl : List Char) (l : List Char) : List Char :=
  match l with
  | [] => []
  | c :: rest =>
      if startsWithL needle (c :: rest) && !needle.isEmpty then
        repl ++ replaceSeq needle repl ((c :: rest).drop needle.length)
      else c :: replaceSeq needle repl rest
termination_by l.length
decreasing_by
  all_goals simp_wf
  all_goals try omega
  all_goals rename_i hcond
  all_goals simp at hcond
  all_goals
    (have hlen : 1 ≤ needle.length := by
      cases needle with
      | nil => simp at hcond
      | cons a as => simp
     simp [List.length_drop]
     omega)

/-- Python s.replace(needle, repl). -/
def pyReplace (s needle repl : String) : String :=
  String.mk (replaceSeq needle.toList repl.toList s.toList)

instance {ε α : Type} [DecidableEq ε] [DecidableEq α] : DecidableEq (Except ε α) :=
  fun x y =>
    match x, y with
    | .ok a, .ok b => if h : a = b then isTrue (by rw [h]) else isFalse (by simp [h])
    | .error a, .error b =>
        if h : a = b then isTrue (by rw [h]) else isFalse (by simp [h])
    | .ok _, .error _ => isFalse (by simp)
    | .error _, .ok _ => isFalse (by simp)

/-- Python `True` / `False` as rendered inside an f-string. -/
def pyBool (b : Bool) : String := if b then "True" else "False"

/-- Python list slicing `l[:n]`, including a negative bound counting from the end. -/
def pySliceTo {α : Type} (n : Int) (l : List α) : List α :=
  if 0 ≤ n then l.take n.toNat
  else l.take (l.length - (-n).toNat)

/-! ## datetime modelling

A Python datetime is either offset-naive or offset-aware.  For an aware datetime only
the UTC instant matters to every comparison and to `astimezone(utc)` normalization, so
we keep just that instant.  Values are natural numbers so that `datetime.min` is the
naive minimum 0 (every Python datetime is bounded below by `datetime.min`). -/

inductive PyDatetime where
  | naive (v : Nat)
  | aware (utc : Nat)
deriving Repr, DecidableEq

/-- `datetime.min` (offset-naive). -/
def dtMin : PyDatetime := .naive 0

/-- Comparing an offset-naive with an offset-aware datetime raises TypeError in
Python; like datetimes compare by value / UTC instant. -/
def dtCmp : PyDatetime → PyDatetime → Except String Ordering
  | .naive a, .naive b => .ok (compare a b)
  | .aware a, .aware b => .ok (compare a b)
  | _, _ => .error "TypeError: cannot compare offset-naive and offset-aware datetimes"

/-- `_normalize_dt`: None becomes `datetime.min`, an aware datetime becomes its naive
UTC counterpart, a naive datetime is unchanged (email_formatter.py lines 23-29). -/
def normalizeDt (dt : Option PyDatetime) : PyDatetime :=
  match dt with
  | none => dtMin
  | some (.aware u) => .naive u
  | some (.naive v) => .naive v

/-- The naive wall-clock value of a normalized datetime. -/
def naiveVal : PyDatetime → Nat
  | .naive v => v
  | .aware u => u

/-- A Python sort key that may be None (`None < None` also raises TypeError). -/
inductive SKey where
  | pynone
  | dt (d : PyDatetime)
deriving Repr, DecidableEq

def skCmp : SKey → SKey → Except String Ordering
  | .dt a, .dt b => dtCmp a b
  | _, _ => .error "TypeError: NoneType is not orderable"

/-! ## Sorting

Python `list.sort` is stable; with a key function it first computes all keys, then
sorts by comparing keys, and a TypeError raised by a comparison propagates.  A stable
insertion sort returns the same list as any stable sort by the same total key order,
so we embed the fallible sorts as insertion sorts in the Except monad and the
infallible ones as plain insertion sorts. -/

/-- Insert into a descending list, after every element whose key is ≥ (stability). -/
def insertDescE {α : Type} (cmp : α → α → Except String Ordering) (x : α) :
    List α → Except String (List α)
  | [] => .ok [x]
  | y :: ys => do
      let c ← cmp x y
      if c = .gt then .ok (x :: y :: ys)
      else do
        let zs ← insertDescE cmp x ys
        .ok (y :: zs)

/-- Stable descending sort with a fallible comparison (`sort(reverse=True)`). -/
def sortDescE {α : Type} (cmp : α → α → Except String Ordering) (l : List α) :
    Except String (List α) :=
  l.foldlM (fun acc x => insertDescE cmp x acc) []

/-- Stable ascending insertion by a boolean total order. -/
def insertAscLe {α : Type} (le : α → α → Bool) (x : α) : List α → List α
  | [] => [x]
  | y :: ys => if le y x then y :: insertAscLe le x ys else x :: y :: ys

def sortAscLe {α : Type} (le : α → α → Bool) (l : List α) : List α :=
  l.foldl (fun acc x => insertAscLe le x acc) []

/-- Stable descending insertion by a boolean total order. -/
def insertDescLe {α : Type} (le : α → α → Bool) (x : α) : List α → List α
  | [] => [x]
  | y :: ys => if le x y then y :: insertDescLe le x ys else x :: y :: ys

def sortDescLe {α : Type} (le : α → α → Bool) (l : List α) : List α :=
  l.foldl (fun acc x => insertDescLe le x acc) []

/-- A totally ordered sort key: a finite naive timestamp or `datetime.max`. -/
inductive TKey where
  | fin (n : Nat)
  | inf
deriving Repr, DecidableEq

def TKey.le : TKey → TKey → Bool
  | .fin a, .fin b => a ≤ b
  | .fin _, .inf => true
  | .inf, .fin _ => false
  | .inf, .inf => true

/-! ## Configuration (config.properties, read through config_reader)

The configuration collaborator is out of scope; the embedded functions take the
configured settings as an explicit record (defaults as in the source). -/

structure Config where
  maxConnectionRetries : Nat := 3
  useExtendedMapiLogin : Bool := true
  sharedMailboxEmail : Option String := none
  personalRetentionMonths : Int := 6
  sharedRetentionMonths : Int := 12
  maxSearchResults : Int := 500
  includeSentItems : Bool := true
  maxBodyChars : Int := 0
  cleanHtmlContent : Bool := true
  maxRecipientsDisplay : Int := 50
  includeTimestamps : Bool := true
deriving Repr, DecidableEq

/-! ## The MailRecord dict -/

/-- One entry of to_recipients / cc_recipients: the client emits dicts with name and
email keys, but arbitrary input may hold a non-dict object, handled in
get_participants by an isinstance check and str(). -/
inductive RecipEntry where
  | rdict (name : Pyv String) (email : Pyv String)
  | other (s : String)
deriving Repr, DecidableEq

/-- The dict-shaped email record produced by `_extract_email_data` and consumed by
the formatter; every slot may be absent or None on arbitrary input. -/
structure MailRecord where
  subject : Pyv String := .absent
  sender_name : Pyv String := .absent
  sender_email : Pyv String := .absent
  to_recipients : Pyv (List RecipEntry) := .absent
  cc_recipients : Pyv (List RecipEntry) := .absent
  recipients : Pyv (List String) := .absent
  received_time : Pyv PyDatetime := .absent
  folder_name : Pyv String := .absent
  mailbox_type : Pyv String := .absent
  importance : Pyv Int := .absent
  body : Pyv String := .absent
  size : Pyv Int := .absent
  attachments_count : Pyv Int := .absent
  unread : Pyv Bool := .absent
  entry_id : Pyv String := .absent
deriving Repr, DecidableEq

/-! ## email_formatter.py -/

/-- `_sort_key_time` (lines 8-20): a naive datetime usable as a total sort key;
a missing timestamp maps to `datetime.min` (or `datetime.max` when reverse). -/
def sortKeyTime (email : MailRecord) (reverse : Bool) : TKey :=
  match email.received_time.get? with
  | none => if reverse then .inf else .fin 0
  | some d => .fin (naiveVal (normalizeDt (some d)))

/-- The reply/forward markers of group_by_conversation (line 211), in source order. -/
def convPrefixes : List String := ["re:", "fwd:", "fw:", "reply:", "forward:"]

/-- The subject-cleaning loop of group_by_conversation (lines 210-217): each known
marker is tested once, in list order, against the current remainder; a match strips
it and strips surrounding whitespace; finally the result is lower-cased. -/
def cleanSubjectKey (subject : String) : String :=
  let clean := convPrefixes.foldl
    (fun acc p =>
      if pyStartsWith (pyLower acc) p then pyStrip (pyDrop acc p.length) else acc)
    subject
  pyLower clean

/-- defaultdict(list) update: append to the existing group in place, or append a new
key at the end (Python dicts preserve key insertion order). -/
def addToGroup (m : List (String × List MailRecord)) (k : String) (e : MailRecord) :
    List (String × List MailRecord) :=
  match m with
  | [] => [(k, [e])]
  | (k0, v0) :: rest =>
      if k0 = k then (k0, v0 ++ [e]) :: rest else (k0, v0) :: addToGroup rest k e

/-- `group_by_conversation` (lines 202-220).  `email.get('subject', '').strip()`
raises AttributeError when the subject key is bound to None. -/
def groupByConversation (emails : List MailRecord) :
    Except String (List (String × List MailRecord)) :=
  emails.foldlM (fun conv e => do
    let subjRaw ← pyStrV (e.subject.getD "")
    let subject := pyStrip subjRaw
    let convKey := cleanSubjectKey subject
    return addToGroup conv convKey e) []

/-- The mailbox_distribution dict of get_mailbox_distribution. -/
structure MailboxDist where
  personal : Nat
  shared : Nat
  unknown : Nat
deriving Repr, DecidableEq

/-- `get_mailbox_distribution` (lines 239-250): counts per scope tag, anything not
personal/shared (including None) folded into unknown.  Total over any input. -/
def getMailboxDistribution (emails : List MailRecord) : MailboxDist :=
  emails.foldl (fun d e =>
    match e.mailbox_type.getD "unknown" with
    | some "personal" => { d with personal := d.personal + 1 }
    | some "shared" => { d with shared := d.shared + 1 }
    | _ => { d with unknown := d.unknown + 1 })
    ⟨0, 0, 0⟩

/-- A datetime serialized with isoformat(); fromisoformat inverts the encoding, so
the wrapper keeps the underlying datetime (awareness included). -/
structure IsoStr where
  dt : PyDatetime
deriving Repr, DecidableEq

/-- The `{first, last}` dict of get_date_range (values are isoformat strings). -/
structure DateRange where
  first : Option IsoStr
  last : Option IsoStr
deriving Repr, DecidableEq

/-- `get_date_range` (lines 223-236): min and max of the present (truthy) timestamps
after `_normalize_dt`; both None when no record has a timestamp.  All normalized
values are naive, so the comparisons never raise and the function is total. -/
def getDateRange (emails : List MailRecord) : DateRange :=
  if emails.isEmpty then ⟨none, none⟩
  else
    let dates := emails.filterMap (fun e => e.received_time.get?)
    match dates.map (fun d => naiveVal (normalizeDt (some d))) with
    | [] => ⟨none, none⟩
    | v :: vs =>
        ⟨some ⟨.naive (vs.foldl Nat.min v)⟩, some ⟨.naive (vs.foldl Nat.max v)⟩⟩

/-- `get_importance_text` (lines 394-397): `{0: Low, 1: Normal, 2: High}.get(x,
"Normal")`; a None importance also falls to "Normal". -/
def getImportanceText (importance : Option Int) : String :=
  match importance with
  | some 0 => "Low"
  | some 1 => "Normal"
  | some 2 => "High"
  | _ => "Normal"

/-- `parse_iso_time` (lines 400-406) applied to a serialized timestamp: fromisoformat
of an isoformat string always succeeds, then `_normalize_dt`; a None input raises
AttributeError which is caught, giving `datetime.min`. -/
def parseIsoTime (s : Option IsoStr) : PyDatetime :=
  match s with
  | none => dtMin
  | some i => normalizeDt (some i.dt)

/-! ### get_participants (lines 253-307) -/

inductive Role where
  | sent
  | to
  | cc
deriving Repr, DecidableEq

/-- One value of the stats dict: best-known name/email (possibly None) and the three
role counters. -/
structure PStat where
  name : Option String
  email : Option String
  sent : Nat
  toCnt : Nat
  ccCnt : Nat
deriving Repr, DecidableEq

/-- The body of `_touch` applied to one existing stat: bump the role counter, then
upgrade email (if truthy and stored falsy) and name (if truthy and stored falsy or
the Unknown placeholder). -/
def touchStat (st : PStat) (name : Option String) (email : Option String)
    (role : Role) : PStat :=
  let st1 :=
    match role with
    | .sent => { st with sent := st.sent + 1 }
    | .to => { st with toCnt := st.toCnt + 1 }
    | .cc => { st with ccCnt := st.ccCnt + 1 }
  let st2 :=
    if truthyS email && !(truthyS st1.email) then { st1 with email := email } else st1
  if truthyS name && (!(truthyS st2.name) || st2.name = some "Unknown") then
    { st2 with name := name }
  else st2

/-- `_touch` on the whole stats dict (insertion-ordered association list): create the
entry on a missing key, then update it. -/
def touchMap (m : List (String × PStat)) (k : String) (name email : Option String)
    (role : Role) : List (String × PStat) :=
  match m with
  | [] => [(k, touchStat ⟨name, email, 0, 0, 0⟩ name email role)]
  | (k0, s0) :: rest =>
      if k0 = k then (k0, touchStat s0 name email role) :: rest
      else (k0, s0) :: touchMap rest k name email role

/-- The key/name/email extracted from one recipient entry (lines 279-280, 286-287):
dict entries use their email/name slots with default `''`; a non-dict entry gives
`('', str(entry))`. -/
def recipKeyParts (entry : RecipEntry) : Option String × Option String :=
  match entry with
  | .rdict n e => (e.getD "", n.getD "")
  | .other s => (some "", some s)

/-- `(e or n).lower()`: raises AttributeError when the selected value is None. -/
def lowerKeyOf (e n : Option String) : Except String String :=
  match pyOrStr e n with
  | none => .error "AttributeError: NoneType has no attribute lower"
  | some s => .ok (pyLower s)

/-- The recipient loop of get_participants for one role: key/name/email per entry,
raising on a None-valued slot. -/
def recipTouches (role : Role) :
    List RecipEntry →
    Except String (List (String × Option String × Option String × Role))
  | [] => .ok []
  | entry :: rest => do
      let k ← lowerKeyOf (recipKeyParts entry).1 (recipKeyParts entry).2
      let ts ← recipTouches role rest
      return (k, (recipKeyParts entry).2, (recipKeyParts entry).1, role) :: ts

/-- The ordered (key, name, email, role) touch sequence one record contributes: the
sender unconditionally, then each To entry and each CC entry whose key is nonempty.
A None recipient list is not iterable; a fully-None sender key raises on lower(). -/
def touchesOfRecord (e : MailRecord) :
    Except String (List (String × Option String × Option String × Role)) := do
  let senderName := e.sender_name.getD "Unknown"
  let senderEmail := e.sender_email.getD ""
  let senderKey ← lowerKeyOf senderEmail senderName
  let tos ←
    match e.to_recipients.getD [] with
    | none => Except.error "TypeError: NoneType is not iterable"
    | some l => Except.ok l
  let ccs ←
    match e.cc_recipients.getD [] with
    | none => Except.error "TypeError: NoneType is not iterable"
    | some l => Except.ok l
  let toTouches ← recipTouches Role.to tos
  let ccTouches ← recipTouches Role.cc ccs
  return (senderKey, senderName, senderEmail, Role.sent)
      :: (toTouches.filter (fun t => t.1 ≠ "") ++ ccTouches.filter (fun t => t.1 ≠ ""))

/-- Apply a touch sequence to the stats dict. -/
def applyTouches (ts : List (String × Option String × Option String × Role))
    (m : List (String × PStat)) : List (String × PStat) :=
  ts.foldl (fun m t => touchMap m t.1 t.2.1 t.2.2.1 t.2.2.2) m

/-- The stats dict built by get_participants over the whole record list. -/
def participantStats (emails : List MailRecord) :
    Except String (List (String × PStat)) :=
  emails.foldlM (fun m e => do
    let ts ← touchesOfRecord e
    return applyTouches ts m) []

/-- One emitted participant dict (lines 298-305). -/
structure Participant where
  name : Option String
  email : Option String
  participation_count : Nat
  sent : Nat
  to_count : Nat
  cc_count : Nat
deriving Repr, DecidableEq

/-- `get_participants` (lines 253-307): build the stats dict, stable-sort its values
by total participation descending, emit at most the top 20. -/
def getParticipants (emails : List MailRecord) : Except String (List Participant) := do
  let stats ← participantStats emails
  let sortedVals := sortDescLe
    (fun a b => a.sent + a.toCnt + a.ccCnt ≤ b.sent + b.toCnt + b.ccCnt)
    (stats.map Prod.snd)
  return (sortedVals.map (fun info =>
    { name := info.name
      email := info.email
      participation_count := info.sent + info.toCnt + info.ccCnt
      sent := info.sent
      to_count := info.toCnt
      cc_count := info.ccCnt })).take 20

/-- `round(x, 1)` on size/1024.  Python rounds half to even; the tie-breaking mode is
immaterial to every property below, so ordinary rounding on rationals is used. -/
def sizeKbOf (size : Int) : ℚ :=
  ((round (((size : ℚ) / 1024) * 10) : Int) : ℚ) / 10

/-- The dict produced by format_single_email (lines 175-199); the received_time key
is present only when include_timestamps is configured, and may be None. -/
structure FormattedEmail where
  subject : Option String
  sender_name : Option String
  sender_email : Option String
  toField : Option (List RecipEntry)
  ccField : Option (List RecipEntry)
  recipients : Option (List String)
  folder : Option String
  mailbox : Option String
  body_preview : String
  attachments : Option Int
  importance : String
  unread : Option Bool
  size_kb : ℚ
  received_time : Pyv IsoStr
deriving Repr, DecidableEq

/-- `format_single_email` (lines 175-199).  Every slot falls back through .get, but a
None size raises TypeError at `size / 1024`; a falsy body gives an empty preview. -/
def formatSingleEmail (cfg : Config) (email : MailRecord) :
    Except String FormattedEmail := do
  let size ←
    match email.size.getD 0 with
    | none => Except.error "TypeError: unsupported operand types for NoneType division"
    | some n => Except.ok n
  let bodyPreview : String :=
    match email.body.get? with
    | none => ""
    | some b => if b = "" then "" else pyTake b 500
  let receivedTime : Pyv IsoStr :=
    if cfg.includeTimestamps then
      match email.received_time.get? with
      | none => .pynone
      | some d => .val ⟨d⟩
    else .absent
  return {
    subject := email.subject.getD "No Subject"
    sender_name := email.sender_name.getD "Unknown"
    sender_email := email.sender_email.getD ""
    toField := email.to_recipients.getD []
    ccField := email.cc_recipients.getD []
    recipients := email.recipients.getD []
    folder := email.folder_name.getD "Unknown"
    mailbox := email.mailbox_type.getD "unknown"
    body_preview := bodyPreview
    attachments := email.attachments_count.getD 0
    importance := getImportanceText (email.importance.getD 1)
    unread := email.unread.getD false
    size_kb := sizeKbOf size
    received_time := receivedTime }

/-- One formatted conversation entry of format_email_chain (lines 91-97). -/
structure FormattedConv where
  conversation_id : String
  email_count : Nat
  date_range : DateRange
  participants : List Participant
  emails : List FormattedEmail
deriving Repr, DecidableEq

/-- The summary dict of format_email_chain (lines 77-83). -/
structure ChainSummary where
  total_emails : Nat
  conversations : Nat
  date_range : DateRange
  mailbox_distribution : MailboxDist
  participants : List Participant
deriving Repr, DecidableEq

/-- The two shapes returned by format_email_chain. -/
inductive ChainResult where
  | noEmails (search_subject : String) (message : String)
  | success (search_subject : String) (summary : ChainSummary)
      (conversations : List FormattedConv)
      (all_emails_chronological : List FormattedEmail)
deriving Repr, DecidableEq

/-- A Python list comprehension over a fallible body: first failure propagates. -/
def mapE {α β : Type} (f : α → Except String β) : List α → Except String (List β)
  | [] => .ok []
  | a :: l => do
      let b ← f a
      let bs ← mapE f l
      return b :: bs

/-- The conversation sort key of format_email_chain line 102:
`max([parse_iso_time(e["received_time"]) for e in x["emails"] if e["received_time"]])`.
A formatted email without the received_time key raises KeyError; if every timestamp
is falsy the comprehension is empty and `max` raises ValueError. -/
def convSortKey (emails : List FormattedEmail) : Except String Nat := do
  let vals ← emails.foldrM (fun e acc =>
    match e.received_time with
    | .absent => Except.error "KeyError: received_time"
    | .pynone => Except.ok acc
    | .val i => Except.ok (naiveVal (parseIsoTime (some i)) :: acc)) []
  match vals with
  | [] => Except.error "ValueError: max of empty sequence"
  | v :: vs => return vs.foldl Nat.max v

/-- `format_email_chain` (lines 63-112): no-emails short circuit, grouping, summary
statistics, per-conversation formatting (chronological ascending), conversations
sorted by most recent email descending, and the flat most-recent-first list. -/
def formatEmailChain (cfg : Config) (emails : List MailRecord)
    (searchSubject : String) : Except String ChainResult := do
  if emails.isEmpty then
    return .noEmails searchSubject ("No emails found for subject: " ++ searchSubject)
  else
    let conversations ← groupByConversation emails
    let allParticipants ← getParticipants emails
    let stats : ChainSummary := {
      total_emails := emails.length
      conversations := conversations.length
      date_range := getDateRange emails
      mailbox_distribution := getMailboxDistribution emails
      participants := allParticipants }
    let formattedConvs ← mapE (fun kv => do
      let convEmails := sortAscLe
        (fun a b => TKey.le (sortKeyTime a false) (sortKeyTime b false)) kv.2
      let fEmails ← mapE (formatSingleEmail cfg) convEmails
      let ps ← getParticipants convEmails
      return ({
        conversation_id := kv.1
        email_count := convEmails.length
        date_range := getDateRange convEmails
        participants := ps
        emails := fEmails } : FormattedConv)) conversations
    let keyed ← mapE (fun c => do
      let k ← convSortKey c.emails
      return (c, k)) formattedConvs
    let sortedConvs := (sortDescLe (fun a b => a.2 ≤ b.2) keyed).map Prod.fst
    let allSorted := sortDescLe
      (fun a b => TKey.le (sortKeyTime a true) (sortKeyTime b true)) emails
    let allFmt ← mapE (formatSingleEmail cfg) allSorted
    return .success searchSubject stats sortedConvs allFmt

/-! ## outlook_client.py: _clean_html (lines 494-517) -/

/-- The tag-removal regex `<[^>]+>`: each match runs from an opening bracket through
at least one non-closing character to the first closing bracket; an opening bracket
with no matching close (or an immediately following close) stays literal. -/
def stripTags (l : List Char) : List Char :=
  match l with
  | [] => []
  | c :: rest =>
      if c = Char.ofNat 60 then
        match rest with
        | d :: tail =>
            if d = Char.ofNat 62 then c :: stripTags (d :: tail)
            else
              match h : (d :: tail).dropWhile (fun x => x ≠ Char.ofNat 62) with
              | _ :: after => stripTags after
              | [] => c :: stripTags (d :: tail)
        | [] => [c]
      else c :: stripTags rest
termination_by l.length
decreasing_by
  all_goals simp_wf
  all_goals first
  | omega
  | (have hs := (List.dropWhile_sublist
        (p := fun x => x ≠ Char.ofNat 62) (l := d :: tail)).length_le
     rw [h] at hs
     simp at hs
     omega)

/-- The fixed entity table of _clean_html (lines 502-509). -/
def htmlEntities : List (String × String) :=
  [("&amp;", "&"), ("&lt;", "<"), ("&gt;", ">"), ("&quot;", "\""),
   ("&#39;", String.singleton (Char.ofNat 39)), ("&nbsp;", " ")]

/-- Whitespace collapsing, the regex `\s+` replaced by one space. -/
def collapseWs (l : List Char) : List Char :=
  match l with
  | [] => []
  | c :: rest =>
      if c.isWhitespace then ' ' :: collapseWs (rest.dropWhile Char.isWhitespace)
      else c :: collapseWs rest
termination_by l.length
decreasing_by
  all_goals simp_wf
  all_goals first
  | omega
  | (have h : (rest.dropWhile Char.isWhitespace).length ≤ rest.length :=
       (List.dropWhile_sublist Char.isWhitespace).length_le
     omega)

/-- `_clean_html` (lines 494-517): strip tags, decode the fixed entities, collapse
whitespace and strip. -/
def cleanHtml (text : String) : String :=
  let noTags := String.mk (stripTags text.toList)
  let decoded := htmlEntities.foldl (fun t kv => pyReplace t kv.1 kv.2) noTags
  pyStrip (String.mk (collapseWs decoded.toList))

/-! ## The COM world

The Outlook store is external; it enters the embedding as explicit data.  COM
property reads that may be missing are Options (getattr defaults); COM calls that may
raise carry a Boolean outcome flag; every session-touching call is recorded as an
event. -/

/-- One COM Recipient object as read by _extract_email_data (lines 385-414). -/
structure ComRecip where
  name : Option String := none
  address : Option String := none
  rtype : Option Int := none
  smtpResolved : Option String := none
deriving Repr, DecidableEq

/-- One COM mail item.  `extractOk` is false when some property read inside
_extract_email_data raises (the whole record is then dropped); `recipientsOk` is
false when iterating item.Recipients raises (caught, recipients left empty). -/
structure Item where
  subject : Option String := none
  senderName : Option String := none
  senderEmailAddress : Option String := none
  senderSmtp : Option String := none
  senderSmtp2 : Option String := none
  body : Option String := none
  receivedTime : Option PyDatetime := none
  comSortKey : Nat := 0
  importance : Option Int := none
  size : Option Int := none
  attachmentsCount : Option Int := none
  unread : Option Bool := none
  entryID : Option String := none
  recipients : List ComRecip := []
  recipientsOk : Bool := true
  extractOk : Bool := true
deriving Repr, DecidableEq

/-! A MAPI folder: name, items, whether Items.Restrict succeeds with the full filter
and with the subject-only fallback, whether subfolder enumeration succeeds, and the
subfolder list (a dedicated list type keeps the recursion structural). -/

mutual

inductive Folder where
  | node (name : String) (items : List Item) (restrictOk : Bool)
      (subjectRestrictOk : Bool) (enumOk : Bool) (subfolders : FolderList)

inductive FolderList where
  | nil
  | cons (f : Folder) (rest : FolderList)

end

def Folder.name : Folder → String
  | .node n _ _ _ _ _ => n

def Folder.items : Folder → List Item
  | .node _ it _ _ _ _ => it

def Folder.restrictOk : Folder → Bool
  | .node _ _ r _ _ _ => r

def Folder.subjectRestrictOk : Folder → Bool
  | .node _ _ _ s _ _ => s

def Folder.enumOk : Folder → Bool
  | .node _ _ _ _ e _ => e

def Folder.subfolders : Folder → FolderList
  | .node _ _ _ _ _ subs => subs

/-- The external session world: liveness of the current COM connection, outcome of a
reconnect, the wall clock, both mailbox stores, and resolution outcomes. -/
structure World where
  connectionAlive : Bool := true
  connectSucceeds : Bool := true
  now : Nat := 0
  personalInbox : Folder := .node "Inbox" [] true true true .nil
  personalSiblings : List Folder := []
  personalInboxOk : Bool := true
  personalStoreName : String := "Personal"
  sharedInbox : Folder := .node "Inbox" [] true true true .nil
  sharedSiblings : List Folder := []
  sharedResolves : Bool := true
  createRecipientOk : Bool := true
  getSharedFolderOk : Bool := true
  sharedStoreName : String := "Shared"

/-- A search-cache entry (data plus creation timestamp, search_emails line 226). -/
structure CacheEntry where
  data : List MailRecord
  timestamp : Nat
deriving Repr, DecidableEq

/-- The mutable OutlookClient state.  The folder cache is keyed by Python object
identity (`id(parent)`) and only short-circuits repeated Sent-Items lookups; it is
not modelled because no claim depends on it. -/
structure ClientState where
  connected : Bool := false
  hasNamespace : Bool := false
  searchCache : List (String × CacheEntry) := []
  sharedRecipientResolved : Option Bool := none
deriving Repr, DecidableEq

/-- Session-touching COM calls, recorded in order. -/
inductive Ev where
  | probe
  | connectAttempt
  | getDefaultFolder
  | enumFolders (store : String)
  | lookupFolder (name : String)
  | restrictQuery (folder : String)
  | subjectQuery (folder : String)
  | createRecipient
  | getSharedFolder
deriving Repr, DecidableEq

/-! ## Connection management (lines 41-113) -/

/-- `_is_connection_alive` (lines 90-99): false without a probe when disconnected,
otherwise one lightweight COM read whose outcome the world decides. -/
def isConnectionAlive (w : World) (st : ClientState) : Bool × List Ev :=
  if st.connected && st.hasNamespace then (w.connectionAlive, [.probe])
  else (false, [])

/-- `connect` (lines 41-88).  The recursive retry loop with backoff sleeps is
collapsed into its outcome: success on the first attempt when the world allows it,
otherwise max_retries failed attempts leaving the client disconnected. -/
def connect (cfg : Config) (w : World) (st : ClientState) :
    Bool × ClientState × List Ev :=
  if w.connectSucceeds then
    (true, { st with connected := true, hasNamespace := true }, [.connectAttempt])
  else
    (false, { st with connected := false, hasNamespace := false },
      List.replicate cfg.maxConnectionRetries .connectAttempt)

/-- `_ensure_connected` (lines 101-113): alive means no change; a stale or missing
connection clears the shared-recipient cache and the search cache (and the folder
cache), then reconnects. -/
def ensureConnected (cfg : Config) (w : World) (st : ClientState) :
    Bool × ClientState × List Ev :=
  let (alive, ev) := isConnectionAlive w st
  if alive then (true, st, ev)
  else
    let st1 : ClientState :=
      { st with connected := false, hasNamespace := false,
                sharedRecipientResolved := none, searchCache := [] }
    let (ok, st2, ev2) := connect cfg w st1
    (ok, st2, ev ++ ev2)

/-- `_shared_mailbox_configured` (lines 159-163). -/
def sharedMailboxConfigured (cfg : Config) : Bool :=
  let addr := pyStrip (cfg.sharedMailboxEmail.getD "")
  addr ≠ "" && !(pyInStr "example.com" addr) && !(pyInStr "your-shared" addr)

/-! ## _extract_email_data (lines 363-458) -/

/-- Exchange-DN detection and SMTP resolution for one recipient (lines 397-403):
resolve when the address starts with a slash or has no at-sign; keep the raw value
when the property read raises. -/
def smtpOf (r : ComRecip) : String :=
  let address := r.address.getD ""
  if address ≠ "" && (pyStartsWith address "/" || !(pyInStr "@" address)) then
    match r.smtpResolved with
    | some s => s
    | none => address
  else address

/-- Sender SMTP resolution (lines 418-432) with the two-stage property fallback. -/
def resolveSenderEmail (item : Item) : String :=
  let se := item.senderEmailAddress.getD ""
  if se ≠ "" && (pyStartsWith se "/" || !(pyInStr "@" se)) then
    match item.senderSmtp with
    | some s => s
    | none =>
        match item.senderSmtp2 with
        | some s2 => s2
        | none => se
  else se

/-- The recipient loop of _extract_email_data (lines 385-414): To/CC split with BCC
lumped into To, the flat backwards-compat list, and the overflow marker once the
display cap is reached. -/
def recipLoop (maxR : Int) (total : Nat) :
    List ComRecip → Nat → List RecipEntry × List RecipEntry × List String
  | [], _ => ([], [], [])
  | r :: rest, cnt =>
      if maxR ≤ (cnt : Int) then
        ([], [], ["... and " ++ toString (total - cnt) ++ " more"])
      else
        let name := r.name.getD ""
        let smtp := smtpOf r
        let entry := RecipEntry.rdict (.val name) (.val smtp)
        let (tos, ccs, flat) := recipLoop maxR total rest (cnt + 1)
        let flatEntry := if name ≠ "" then name else smtp
        if r.rtype.getD 1 = 2 then (tos, entry :: ccs, flatEntry :: flat)
        else (entry :: tos, ccs, flatEntry :: flat)

/-- `_extract_email_data` (lines 363-458): body truncation and HTML cleaning per
config, recipient extraction, sender resolution, and the record dict with per-field
defaults; `received_time` falls back to `datetime.now()` (naive, the current world
clock); any property failure drops the whole record (returns None). -/
def extractEmailData (cfg : Config) (w : World) (item : Item) (folderName : String)
    (mailboxType : String) : Option MailRecord :=
  if !item.extractOk then none
  else
    let body0 := item.body.getD ""
    let body1 :=
      if 0 < cfg.maxBodyChars && cfg.maxBodyChars < (body0.length : Int) then
        pyTake body0 cfg.maxBodyChars.toNat ++ " [truncated]"
      else body0
    let body2 :=
      if cfg.cleanHtmlContent && body1 ≠ "" then cleanHtml body1 else body1
    let (tos, ccs, flat) :=
      if item.recipientsOk then
        recipLoop cfg.maxRecipientsDisplay item.recipients.length item.recipients 0
      else ([], [], [])
    some {
      subject := .val (item.subject.getD "No Subject")
      sender_name := .val (item.senderName.getD "Unknown")
      sender_email := .val (resolveSenderEmail item)
      to_recipients := .val tos
      cc_recipients := .val ccs
      recipients := .val flat
      received_time := .val (item.receivedTime.getD (.naive w.now))
      folder_name := .val folderName
      mailbox_type := .val mailboxType
      importance := .val (item.importance.getD 1)
      body := .val body2
      size := .val (item.size.getD 0)
      attachments_count := .val (item.attachmentsCount.getD 0)
      unread := .val (item.unread.getD false)
      entry_id := .val (item.entryID.getD "") }

/-! ## Per-folder search (lines 246-361) -/

/-! `_collect_subfolders_recursive` (lines 291-299): the folder itself, then a
depth-first walk of its subfolders; an enumeration failure skips the children of
that node only. -/

mutual

def collectSubfolders (f : Folder) : List Folder :=
  match f with
  | .node n it r s e subs =>
      .node n it r s e subs :: (if e then collectFolderList subs else [])

def collectFolderList : FolderList → List Folder
  | .nil => []
  | .cons f rest => collectSubfolders f ++ collectFolderList rest

end

/-- COM `Items.Sort("[ReceivedTime]", True)`: a store-side stable descending sort by
the item sort key (COM variant comparisons are total and never raise). -/
def comSortDesc (items : List Item) : List Item :=
  sortDescLe (fun a b => a.comSortKey ≤ b.comSortKey) items

/-- The DASL filter: subject OR plain-text body contains the term, case-insensitive. -/
def itemMatches (text : String) (it : Item) : Bool :=
  pyInStr (pyLower text) (pyLower (it.subject.getD "")) ||
  pyInStr (pyLower text) (pyLower (it.body.getD ""))

/-- The subject-only fallback filter. -/
def itemMatchesSubject (text : String) (it : Item) : Bool :=
  pyInStr (pyLower text) (pyLower (it.subject.getD ""))

/-- The shared item loop of _search_folder_restrict (lines 325-335 and 346-356):
stop at the remaining budget; skip items with an empty or already-seen EntryID; a
record that fails extraction is skipped without consuming budget or marking the id. -/
def restrictLoop (cfg : Config) (w : World) (folderName mailboxType : String)
    (maxR : Int) : List Item → Nat → List String → List MailRecord × List String
  | [], _, ids => ([], ids)
  | it :: rest, cnt, ids =>
      if maxR ≤ (cnt : Int) then ([], ids)
      else
        let eid := it.entryID.getD ""
        if eid ≠ "" && !(ids.contains eid) then
          match extractEmailData cfg w it folderName mailboxType with
          | some r =>
              let (es, ids2) :=
                restrictLoop cfg w folderName mailboxType maxR rest (cnt + 1)
                  (eid :: ids)
              (r :: es, ids2)
          | none => restrictLoop cfg w folderName mailboxType maxR rest cnt ids
        else restrictLoop cfg w folderName mailboxType maxR rest cnt ids

/-- `_search_folder_restrict` (lines 303-361): sort newest-first, Restrict with the
subject-or-body filter; on failure retry with the subject-only filter; if both fail
the folder contributes nothing (logged and skipped). -/
def searchFolderRestrict (cfg : Config) (w : World) (folder : Folder)
    (text mailboxType : String) (maxR : Int) (ids : List String) :
    List MailRecord × List String × List Ev :=
  if folder.restrictOk then
    let filtered := (comSortDesc folder.items).filter (itemMatches text)
    let (es, ids2) :=
      restrictLoop cfg w folder.name mailboxType maxR filtered 0 ids
    (es, ids2, [.restrictQuery folder.name])
  else if folder.subjectRestrictOk then
    let filtered := (comSortDesc folder.items).filter (itemMatchesSubject text)
    let (es, ids2) :=
      restrictLoop cfg w folder.name mailboxType maxR filtered 0 ids
    (es, ids2, [.restrictQuery folder.name, .subjectQuery folder.name])
  else ([], ids, [.restrictQuery folder.name, .subjectQuery folder.name])

/-- `_get_folder_by_name` (lines 473-492) for the Sent Items lookup: first sibling
whose lower-cased name matches. -/
def findFolderNamed (siblings : List Folder) (target : String) : Option Folder :=
  siblings.find? (fun f => pyLower f.name = pyLower target)

/-- The folder loop of _search_mailbox_comprehensive (lines 275-286): stop globally
at max_results, pass the remaining budget and the running duplicate set to each
folder. -/
def foldFolders (cfg : Config) (w : World) (text mailboxType : String) (maxR : Int) :
    List Folder → List MailRecord → List String → List MailRecord × List Ev
  | [], acc, _ => (acc, [])
  | f :: rest, acc, ids =>
      if maxR ≤ (acc.length : Int) then (acc, [])
      else
        let (es, ids2, evs) :=
          searchFolderRestrict cfg w f text mailboxType (maxR - acc.length) ids
        let (accF, evs2) := foldFolders cfg w text mailboxType maxR rest (acc ++ es) ids2
        (accF, evs ++ evs2)

/-- `_search_mailbox_comprehensive` (lines 246-287): collect the inbox tree plus the
Sent Items sibling when configured, then run the capped, deduplicating folder loop. -/
def searchMailboxComprehensive (cfg : Config) (w : World) (inbox : Folder)
    (siblings : List Folder) (text mailboxType : String) (maxR : Int) :
    List MailRecord × List Ev :=
  let folders := collectSubfolders inbox
  let (folders2, evSent) :=
    if cfg.includeSentItems then
      match findFolderNamed siblings "Sent Items" with
      | some f => (folders ++ [f], [Ev.lookupFolder "Sent Items"])
      | none => (folders, [Ev.lookupFolder "Sent Items"])
    else (folders, [])
  let (emails, evs) := foldFolders cfg w text mailboxType maxR folders2 [] []
  (emails, Ev.enumFolders inbox.name :: evSent ++ evs)

/-! ## search_emails (lines 165-238) -/

/-- The f-string cache key (line 177). -/
def cacheKeyOf (cfg : Config) (text : String) (incP incS : Bool) : String :=
  text ++ "_" ++ pyBool incP ++ "_" ++ pyBool incS ++ "_" ++
    toString cfg.maxSearchResults

/-- Association-list lookup on the insertion-ordered cache dict. -/
def lookupAssoc {β : Type} (c : List (String × β)) (k : String) : Option β :=
  match c.find? (fun kv => kv.1 = k) with
  | some kv => some kv.2
  | none => none

/-- The cache-hit test (lines 179-183): an entry for the key younger than 3600s. -/
def freshCacheHit (cache : List (String × CacheEntry)) (key : String) (now : Nat) :
    Option (List MailRecord) :=
  match lookupAssoc cache key with
  | some e => if (now : Int) - (e.timestamp : Int) < 3600 then some e.data else none
  | none => none

/-- Dict assignment: replace the value in place, or append a new key at the end. -/
def cacheStore (c : List (String × CacheEntry)) (k : String) (e : CacheEntry) :
    List (String × CacheEntry) :=
  match c with
  | [] => [(k, e)]
  | (k0, e0) :: rest =>
      if k0 = k then (k0, e) :: rest else (k0, e0) :: cacheStore rest k e

/-- `min(keys, key=timestamp)`: the first key (dict order) with minimal timestamp. -/
def oldestKey : List (String × CacheEntry) → Option (String × Nat)
  | [] => none
  | (k, e) :: rest =>
      match oldestKey rest with
      | none => some (k, e.timestamp)
      | some (kb, tb) => if e.timestamp ≤ tb then some (k, e.timestamp) else some (kb, tb)

/-- Cache-size limiting (lines 232-236): over 100 entries, delete the oldest. -/
def limitCache (c : List (String × CacheEntry)) : List (String × CacheEntry) :=
  if 100 < c.length then
    match oldestKey c with
    | some (k, _) => c.eraseP (fun kv => kv.1 = k)
    | none => c
  else c

/-- The sort key of search_emails line 222: `x.get('received_time', datetime.min)`.
A record whose slot holds None contributes the Python None as key. -/
def clientSortKey (r : MailRecord) : SKey :=
  match r.received_time with
  | .absent => .dt dtMin
  | .pynone => .pynone
  | .val d => .dt d

/-- The shared-mailbox block of search_emails (lines 199-219): resolve the shared
recipient once (cached), search its inbox tree with the remaining budget; any COM
failure in the block is caught, logged, and clears the recipient cache. -/
def sharedBlock (cfg : Config) (w : World) (st : ClientState) (text : String)
    (budget : Int) : List MailRecord × ClientState × List Ev :=
  if w.createRecipientOk then
    let (resolved, st1, ev1) :=
      match st.sharedRecipientResolved with
      | some r => (r, st, ([] : List Ev))
      | none =>
          (w.sharedResolves,
           { st with sharedRecipientResolved := some w.sharedResolves },
           [Ev.createRecipient])
    if resolved then
      if w.getSharedFolderOk then
        let (es, evs) :=
          searchMailboxComprehensive cfg w w.sharedInbox w.sharedSiblings text
            "shared" budget
        (es, st1, ev1 ++ Ev.getSharedFolder :: evs)
      else
        ([], { st1 with sharedRecipientResolved := none },
         ev1 ++ [Ev.getSharedFolder])
    else ([], st1, ev1)
  else ([], { st with sharedRecipientResolved := none }, [Ev.createRecipient])

/-- The personal-mailbox block of search_emails (lines 188-196): GetDefaultFolder(6)
followed by the comprehensive search of the personal store. -/
def personalPass (cfg : Config) (w : World) (text : String) (incP : Bool)
    (maxR : Int) : List MailRecord × List Ev :=
  if incP then
    let (es, evs) :=
      searchMailboxComprehensive cfg w w.personalInbox w.personalSiblings
        text "personal" maxR
    (es, Ev.getDefaultFolder :: evs)
  else ([], [])

/-- The guarded shared-mailbox block of search_emails (lines 198-219). -/
def sharedPass (cfg : Config) (w : World) (st : ClientState) (text : String)
    (incS : Bool) (budget : Int) : List MailRecord × ClientState × List Ev :=
  if incS && sharedMailboxConfigured cfg then sharedBlock cfg w st text budget
  else ([], st, [])

/-- `search_emails` (lines 165-238): ensure a live connection (returning [] when it
cannot be established), serve a fresh cache hit, otherwise run the personal and
shared passes, sort newest-first with the raw (unnormalized) datetime keys — a
TypeError from a mixed naive/aware comparison propagates to the caller — truncate,
cache, and return. -/
def searchEmails (cfg : Config) (w : World) (st : ClientState) (text : String)
    (incP incS : Bool) :
    Except String (List MailRecord) × ClientState × List Ev :=
  let (ok, st1, ev1) := ensureConnected cfg w st
  if !ok then (.ok [], st1, ev1)
  else
    let maxR := cfg.maxSearchResults
    let cacheKey := cacheKeyOf cfg text incP incS
    match freshCacheHit st1.searchCache cacheKey w.now with
    | some data => (.ok data, st1, ev1)
    | none =>
        let (personalEmails, evP) := personalPass cfg w text incP maxR
        let (sharedEmails, st2, evS) :=
          sharedPass cfg w st1 text incS (maxR - personalEmails.length)
        let allEmails := personalEmails ++ sharedEmails
        match sortDescE (fun a b => skCmp (clientSortKey a) (clientSortKey b))
            allEmails with
        | .error e => (.error e, st2, ev1 ++ evP ++ evS)
        | .ok sorted =>
            let limited := pySliceTo maxR sorted
            let cache2 := cacheStore st2.searchCache cacheKey ⟨limited, w.now⟩
            (.ok limited, { st2 with searchCache := limitCache cache2 },
             ev1 ++ evP ++ evS)

/-! ## check_access (lines 115-157) -/

/-- The access-report dict; personal_name / shared_name keys are set only when the
corresponding probe succeeds. -/
structure AccessReport where
  outlookConnected : Bool
  personalAccessible : Bool
  sharedAccessible : Bool
  sharedConfigured : Bool
  retentionPersonalMonths : Int
  retentionSharedMonths : Int
  personalName : Option String
  sharedName : Option String
  errors : List String
deriving Repr, DecidableEq

/-- check_access returns either the connection-failure dict or the report. -/
inductive AccessResult where
  | connError (msg : String)
  | report (r : AccessReport)
deriving Repr, DecidableEq

/-- `check_access` (lines 115-157).  Note line 124: shared_configured is the raw
truthiness of the configured address, with no placeholder check; a truthy address is
also resolved (or served from the recipient cache) to probe the shared store. -/
def checkAccess (cfg : Config) (w : World) (st : ClientState) :
    AccessResult × ClientState × List Ev :=
  let (ok, st1, ev1) := ensureConnected cfg w st
  if !ok then (.connError "Could not connect to Outlook", st1, ev1)
  else
    let sharedConfigured := (cfg.sharedMailboxEmail.getD "") ≠ ""
    let (personalAccessible, personalName, errs1) :=
      if w.personalInboxOk then (true, some w.personalStoreName, ([] : List String))
      else (false, none, ["Personal mailbox error"])
    let ev2 := [Ev.getDefaultFolder]
    let (sharedAccessible, sharedName, errs2, st2, ev3) :=
      if (cfg.sharedMailboxEmail.getD "") ≠ "" then
        if w.createRecipientOk then
          let (resolved, stA, evA) :=
            match st1.sharedRecipientResolved with
            | some r => (r, st1, ([] : List Ev))
            | none =>
                (w.sharedResolves,
                 { st1 with sharedRecipientResolved := some w.sharedResolves },
                 [Ev.createRecipient])
          if resolved then
            if w.getSharedFolderOk then
              (true, some w.sharedStoreName, ([] : List String), stA,
               evA ++ [Ev.getSharedFolder])
            else
              (false, none, ["Shared mailbox error"],
               { stA with sharedRecipientResolved := none },
               evA ++ [Ev.getSharedFolder])
          else (false, none, ([] : List String), stA, evA)
        else
          (false, none, ["Shared mailbox error"],
           { st1 with sharedRecipientResolved := none }, [Ev.createRecipient])
      else (false, none, ([] : List String), st1, ([] : List Ev))
    (.report {
        outlookConnected := true
        personalAccessible := personalAccessible
        sharedAccessible := sharedAccessible
        sharedConfigured := sharedConfigured
        retentionPersonalMonths := cfg.personalRetentionMonths
        retentionSharedMonths := cfg.sharedRetentionMonths
        personalName := personalName
        sharedName := sharedName
        errors := errs1 ++ errs2 },
     st2, ev1 ++ ev2 ++ ev3)

/-! ## outlook_mcp.py: tool dispatch and handlers (lines 151-290)

The protocol layer is out of scope; `callTool` receives the tool name and the
argument dict.  `await _run_com(...)` may itself deliver a failure from the executor
(spec section 4.1: a work item error is delivered to the caller); that possibility
enters as the comFault parameter and is caught by the per-handler try blocks. -/

/-- The arguments dict of a tool call. -/
structure ToolArgs where
  searchText : Pyv String := .absent
  includePersonal : Pyv Bool := .absent
  includeShared : Pyv Bool := .absent
deriving Repr, DecidableEq

/-- The dict built by format_mailbox_status (email_formatter.py lines 34-60); its
status slot is always "success", even over the connection-failure dict, whose flags
all fall back to their .get defaults. -/
structure MailboxStatus where
  outlookConnected : Bool
  personalAccessible : Bool
  personalName : String
  personalRetention : Int
  sharedConfigured : Bool
  sharedAccessible : Bool
  sharedName : String
  sharedEmail : String
  sharedRetention : Int
  errors : List String
deriving Repr, DecidableEq

/-- `format_mailbox_status` (email_formatter.py lines 34-60). -/
def formatMailboxStatus (cfg : Config) (a : AccessResult) : MailboxStatus :=
  match a with
  | .connError _ =>
      { outlookConnected := false
        personalAccessible := false
        personalName := "Personal Mailbox"
        personalRetention := 6
        sharedConfigured := false
        sharedAccessible := false
        sharedName := "Shared Mailbox"
        sharedEmail := cfg.sharedMailboxEmail.getD "Not configured"
        sharedRetention := 12
        errors := [] }
  | .report r =>
      { outlookConnected := r.outlookConnected
        personalAccessible := r.personalAccessible
        personalName := r.personalName.getD "Personal Mailbox"
        personalRetention := r.retentionPersonalMonths
        sharedConfigured := r.sharedConfigured
        sharedAccessible := r.sharedAccessible
        sharedName := r.sharedName.getD "Shared Mailbox"
        sharedEmail := cfg.sharedMailboxEmail.getD "Not configured"
        sharedRetention := r.retentionSharedMonths
        errors := r.errors }

/-- The result dict of handle_get_email_contacts (outlook_mcp.py lines 273-279). -/
structure ContactsResult where
  status : String
  searchText : String
  emailsScanned : Nat
  dateRange : DateRange
  contacts : List Participant
deriving Repr, DecidableEq

/-- Every payload shape a tool call can return.  The error constructors carry the
exact key sets of the corresponding Python error dicts: only the dispatch-level
handler (call_tool lines 184-192) includes the tool name. -/
inductive ToolPayload where
  | mailboxStatus (m : MailboxStatus)
  | chain (c : ChainResult)
  | contacts (c : ContactsResult)
  | dispatchError (tool : String) (err : String) (msg : String)
  | accessError (msg : String)
  | chainError (searchText : String) (msg : String)
  | contactsError (searchText : String) (msg : String)
deriving Repr, DecidableEq

/-- `handle_check_mailbox_access` (lines 195-220). -/
def handleCheckMailboxAccess (cfg : Config) (w : World) (st : ClientState)
    (comFault : Option String) : ToolPayload × ClientState :=
  match comFault with
  | some e => (.accessError ("Could not check mailbox access: " ++ e), st)
  | none =>
      let (res, st1, _) := checkAccess cfg w st
      (.mailboxStatus (formatMailboxStatus cfg res), st1)

/-- `handle_get_email_chain` (lines 223-254): search on the COM thread, then format;
any exception in the block yields the error dict with status, search_text, message
and troubleshooting keys. -/
def handleGetEmailChain (cfg : Config) (w : World) (st : ClientState) (text : String)
    (incP incS : Bool) (comFault : Option String) : ToolPayload × ClientState :=
  match comFault with
  | some e => (.chainError text ("Could not search emails: " ++ e), st)
  | none =>
      let (res, st1, _) := searchEmails cfg w st text incP incS
      match res with
      | .error e => (.chainError text ("Could not search emails: " ++ e), st1)
      | .ok emails =>
          match formatEmailChain cfg emails text with
          | .error e => (.chainError text ("Could not search emails: " ++ e), st1)
          | .ok c => (.chain c, st1)

/-- `handle_get_email_contacts` (lines 257-290). -/
def handleGetEmailContacts (cfg : Config) (w : World) (st : ClientState)
    (text : String) (incP incS : Bool) (comFault : Option String) :
    ToolPayload × ClientState :=
  match comFault with
  | some e => (.contactsError text ("Contact search failed: " ++ e), st)
  | none =>
      let (res, st1, _) := searchEmails cfg w st text incP incS
      match res with
      | .error e => (.contactsError text ("Contact search failed: " ++ e), st1)
      | .ok emails =>
          match getParticipants emails with
          | .error e => (.contactsError text ("Contact search failed: " ++ e), st1)
          | .ok participants =>
              (.contacts {
                  status := if emails.isEmpty then "no_emails_found" else "success"
                  searchText := text
                  emailsScanned := emails.length
                  dateRange := getDateRange emails
                  contacts := participants }, st1)

/-- Truthiness used for include_personal / include_shared as the client tests them
(a None argument is falsy). -/
def truthyB (o : Option Bool) : Bool :=
  match o with
  | none => false
  | some b => b

/-- `call_tool` (lines 151-192): dispatch by name; a falsy search_text raises
ValueError inside the outer try, as does an unknown tool name, both yielding the
dispatch error dict that carries status, tool, error and message keys. -/
def callTool (cfg : Config) (w : World) (st : ClientState) (name : String)
    (args : ToolArgs) (comFault : Option String) : ToolPayload × ClientState :=
  if name = "check_mailbox_access" then
    handleCheckMailboxAccess cfg w st comFault
  else if name = "get_email_chain" then
    match args.searchText.get? with
    | none =>
        (.dispatchError name "search_text parameter is required"
          ("Failed to execute " ++ name ++ ": search_text parameter is required"), st)
    | some text =>
        if text = "" then
          (.dispatchError name "search_text parameter is required"
            ("Failed to execute " ++ name ++ ": search_text parameter is required"),
           st)
        else
          handleGetEmailChain cfg w st text
            (truthyB (args.includePersonal.getD true))
            (truthyB (args.includeShared.getD true)) comFault
  else if name = "get_email_contacts" then
    match args.searchText.get? with
    | none =>
        (.dispatchError name "search_text parameter is required"
          ("Failed to execute " ++ name ++ ": search_text parameter is required"), st)
    | some text =>
        if text = "" then
          (.dispatchError name "search_text parameter is required"
            ("Failed to execute " ++ name ++ ": search_text parameter is required"),
           st)
        else
          handleGetEmailContacts cfg w st text
            (truthyB (args.includePersonal.getD true))
            (truthyB (args.includeShared.getD true)) comFault
  else
    (.dispatchError name ("Unknown tool: " ++ name)
      ("Failed to execute " ++ name ++ ": Unknown tool: " ++ name), st)

/-- The status slot of a payload as the caller sees it. -/
def payloadStatus : ToolPayload → String
  | .mailboxStatus _ => "success"
  | .chain (.noEmails _ _) => "no_emails_found"
  | .chain (.success _ _ _ _) => "success"
  | .contacts c => c.status
  | .dispatchError _ _ _ => "error"
  | .accessError _ => "error"
  | .chainError _ _ => "error"
  | .contactsError _ _ => "error"

/-- The tool-name slot of a payload, when the dict carries one. -/
def payloadToolName : ToolPayload → Option String
  | .dispatchError t _ _ => some t
  | _ => none

/-- The message slot of a payload, when the dict carries one. -/
def payloadMessage : ToolPayload → Option String
  | .dispatchError _ _ m => some m
  | .accessError m => some m
  | .chainError _ m => some m
  | .contactsError _ m => some m
  | .chain (.noEmails _ m) => some m
  | _ => none

/-! ## Observers and predicates used by the statements -/

/-- The entry-id string of a record (empty for an absent or None slot). -/
def idStr (r : MailRecord) : String :=
  match r.entry_id with
  | .val e => e
  | _ => ""

/-- Is this slot anything but a Python None? -/
def Pyv.notNone {α : Type} : Pyv α → Bool
  | .pynone => false
  | _ => true

/-- Does the slot hold an actual value? -/
def Pyv.isVal {α : Type} : Pyv α → Bool
  | .val _ => true
  | _ => false

def RecipEntry.cleanB : RecipEntry → Bool
  | .rdict n e => n.notNone && e.notNone
  | .other _ => true

def recipListClean : Pyv (List RecipEntry) → Bool
  | .pynone => false
  | .absent => true
  | .val l => l.all RecipEntry.cleanB

/-- A record none of whose present slots is Python None (absent slots allowed). -/
def cleanRecord (e : MailRecord) : Bool :=
  e.subject.notNone && e.sender_name.notNone && e.sender_email.notNone &&
  recipListClean e.to_recipients && recipListClean e.cc_recipients &&
  e.recipients.notNone && e.received_time.notNone && e.folder_name.notNone &&
  e.mailbox_type.notNone && e.importance.notNone && e.body.notNone &&
  e.size.notNone && e.attachments_count.notNone && e.unread.notNone &&
  e.entry_id.notNone

/-- The list a search result carries (empty on a propagated exception). -/
def resultList (t : Except String (List MailRecord) × ClientState × List Ev) :
    List MailRecord :=
  match t.1 with
  | .ok l => l
  | .error _ => []

/-- The participant emails of a get_participants result. -/
def partEmails (r : Except String (List Participant)) : List (Option String) :=
  match r with
  | .ok l => l.map (fun p => p.email)
  | .error _ => []

/-- The shared_configured slot of an access result (false on the error dict). -/
def accessSharedConfigured : AccessResult → Bool
  | .report r => r.sharedConfigured
  | .connError _ => false

/-- The two COM calls that belong to the shared scope: identity resolution and
shared-store folder access. -/
def isSharedEv : Ev → Bool
  | .createRecipient => true
  | .getSharedFolder => true
  | _ => false

/-- The per-folder store queries (full filter and subject-only fallback). -/
def isQueryEv : Ev → Bool
  | .restrictQuery _ => true
  | .subjectQuery _ => true
  | _ => false

/-- The per-role count increment of one `_touch`. -/
def roleDelta : Role → Nat × Nat × Nat
  | .sent => (1, 0, 0)
  | .to => (0, 1, 0)
  | .cc => (0, 0, 1)

/-- The (sent, to, cc) counters stored for key k (zeros when the key is absent). -/
def countsAt (m : List (String × PStat)) (k : String) : Nat × Nat × Nat :=
  match m.find? (fun kv => kv.1 = k) with
  | some kv => (kv.2.sent, kv.2.toCnt, kv.2.ccCnt)
  | none => (0, 0, 0)

/-- The total count delta a touch sequence contributes to key k. -/
def touchDelta (ts : List (String × Option String × Option String × Role))
    (k : String) : Nat × Nat × Nat :=
  (ts.map (fun t => if t.1 = k then roleDelta t.2.2.2 else (0, 0, 0))).sum

/-- The count delta one record contributes to key k (zeros if its touches raise). -/
def recDelta (e : MailRecord) (k : String) : Nat × Nat × Nat :=
  match touchesOfRecord e with
  | .ok ts => touchDelta ts k
  | .error _ => (0, 0, 0)

/-- A well-formed caller-visible payload: a recognized status, and every error
payload carries a message. -/
def WfPayload (p : ToolPayload) : Prop :=
  (payloadStatus p = "success" ∨ payloadStatus p = "no_emails_found" ∨
   payloadStatus p = "error") ∧
  (payloadStatus p = "error" → (payloadMessage p).isSome = true)

/-! ## Concrete fixtures for the counterexamples and witnesses -/

/-- A client that is connected with a live namespace and empty caches. -/
def connectedState : ClientState := { connected := true, hasNamespace := true }

def fixRec : MailRecord :=
  { subject := .val "hello", received_time := .val (.naive 7), entry_id := .val "A" }

/-- A connected client holding a fresh cache entry for the key of
search_emails("hello", True, True) at max_search_results 500. -/
def cachedState : ClientState :=
  { connected := true
    hasNamespace := true
    searchCache := [("hello_True_True_500", ⟨[fixRec], 5⟩)] }

def liveWorld : World := { connectionAlive := true, now := 10 }

def itemPersX : Item :=
  { subject := some "hello world", receivedTime := some (.naive 50),
    entryID := some "X" }

def itemSharX : Item :=
  { subject := some "hello again", receivedTime := some (.naive 60),
    entryID := some "X" }

/-- A world whose personal and shared stores both expose a matching item carrying
the same EntryID value. -/
def dupWorld : World :=
  { connectionAlive := true
    now := 10
    personalInbox := .node "Inbox" [itemPersX] true true true .nil
    sharedInbox := .node "Inbox" [itemSharX] true true true .nil }

/-- A genuinely configured (non-placeholder) shared mailbox. -/
def sharedCfg : Config := { sharedMailboxEmail := some "team@contoso.com" }

def itemAware : Item :=
  { subject := some "hello", receivedTime := some (.aware 50), entryID := some "A" }

/-- An item with no ReceivedTime attribute: extraction substitutes the naive
datetime.now(). -/
def itemNoTime : Item := { subject := some "hello", entryID := some "B" }

/-- A world whose inbox mixes a timezone-aware item with one that gets the naive
now() fallback. -/
def mixedWorld : World :=
  { connectionAlive := true
    now := 10
    personalInbox := .node "Inbox" [itemAware, itemNoTime] true true true .nil }

/-- A placeholder shared-mailbox address, as shipped in config.properties. -/
def placeholderCfg : Config := { sharedMailboxEmail := some "orders@example.com" }

/-- max_search_results configured to zero. -/
def zeroCfg : Config := { maxSearchResults := 0 }

def mkSender (s : String) : MailRecord := { sender_email := .val s }

/-- Twenty distinct single-letter senders a..t. -/
def base20 : List MailRecord :=
  (List.range 20).map (fun i => mkSender (String.singleton (Char.ofNat (97 + i))))

/-- Twenty-one senders, u last. -/
def perm21a : List MailRecord := base20 ++ [mkSender "u"]

/-- The same twenty-one senders, u first. -/
def perm21b : List MailRecord := mkSender "u" :: base20

def subjOrder1 : MailRecord :=
  { subject := .val "Order #1", received_time := .val (.naive 1) }

def subjReOrder1 : MailRecord :=
  { subject := .val "Re: Order #1", received_time := .val (.naive 2) }

def subjFwOrder1 : MailRecord :=
  { subject := .val "FW: Order #1", received_time := .val (.naive 3) }

def subjReFwdOrder : MailRecord := { subject := .val "Re: Fwd: Order" }

def subjPlainOrder : MailRecord := { subject := .val "Order" }

/-- A record dict with every key absent. -/
def emptyRec : MailRecord := {}

/-! # Theorems -/

/-! ## C1: the cache-hit path -/

/-- Claim C1 counterexample.  At a connected client holding a fresh cache entry for
the request key, search_emails does return the cached list verbatim — but its event
trace contains the liveness probe: `_ensure_connected` runs before the cache lookup,
so the cache-hit path performs a session access, contradicting the claim that it
returns without any session access and that it may return without touching the
session. -/
theorem C1_counterexample :
    freshCacheHit cachedState.searchCache (cacheKeyOf {} "hello" true true)
        liveWorld.now = some [fixRec] ∧
    searchEmails {} liveWorld cachedState "hello" true true =
      (.ok [fixRec], cachedState, [Ev.probe]) ∧
    Ev.probe ∈ (searchEmails {} liveWorld cachedState "hello" true true).2.2 := by
  refine ⟨by decide, by decide, ?_⟩
  decide

/-- Claim C1, amended.  On a live connection, a cache entry for the key
(filterText, includePersonal, includeShared, maxResults) younger than the 3600s TTL
makes search_emails return the cached list verbatim with the state unchanged and
with the liveness probe as the only session access: no folder enumeration and no
query is issued, so a second identical request within the TTL performs no second
query.  (The claim overstated this: the probe does touch the session, and no path of
search_emails returns without touching it.) -/
theorem C1_amended (cfg : Config) (w : World) (st : ClientState) (text : String)
    (incP incS : Bool) (d : List MailRecord)
    (hc : st.connected = true) (hn : st.hasNamespace = true)
    (ha : w.connectionAlive = true)
    (hhit : freshCacheHit st.searchCache (cacheKeyOf cfg text incP incS) w.now
      = some d) :
    searchEmails cfg w st text incP incS = (.ok d, st, [Ev.probe]) := by
  unfold searchEmails ensureConnected isConnectionAlive
  simp [hc, hn, ha, hhit]

/-- Witness for C1_amended at the concrete connected, freshly cached client. -/
theorem C1_amended_witness :
    (cachedState.connected = true ∧ cachedState.hasNamespace = true ∧
     liveWorld.connectionAlive = true ∧
     freshCacheHit cachedState.searchCache (cacheKeyOf {} "hello" true true)
       liveWorld.now = some [fixRec]) ∧
    searchEmails {} liveWorld cachedState "hello" true true =
      (.ok [fixRec], cachedState, [Ev.probe]) :=
  ⟨⟨rfl, rfl, rfl, by decide⟩,
   C1_amended {} liveWorld cachedState "hello" true true [fixRec] rfl rfl rfl
     (by decide)⟩

/-! ## C3: the search_emails sort and timezone normalization -/

/-- Claim C3 is right about the intended behavior and the code is wrong: the sort at
outlook_client.py line 222 compares raw `received_time` values with no
normalization, so one timezone-aware item together with one item that received the
naive datetime.now() fallback makes the sort raise TypeError, which propagates out
of search_emails.  This theorem evaluates the code at that failing input. -/
theorem C3_codebug :
    (searchEmails {} mixedWorld connectedState "hello" true true).1 =
      .error "TypeError: cannot compare offset-naive and offset-aware datetimes" := by
  decide

/-! ## C5: conversation-key prefix stripping -/

/-- Claim C5 counterexample.  The stripping loop tests every prefix in turn against
the current remainder, so "Re: Fwd: Order" IS fully stripped to "Order" (re: is
tested before fwd:), contradicting the claimed single-prefix behavior: the records
with subjects "Re: Fwd: Order" and "Order" land in one conversation group. -/
theorem C5_counterexample :
    cleanSubjectKey "Re: Fwd: Order" = "order" ∧
    groupByConversation [subjReFwdOrder, subjPlainOrder] =
      .ok [("order", [subjReFwdOrder, subjPlainOrder])] := by
  refine ⟨by decide, by decide⟩

/-- Claim C5, amended.  group_by_conversation strips at most one occurrence of EACH
known prefix, tested once per prefix in the fixed order re:, fwd:, fw:, reply:,
forward: against the current remainder, then lower-cases.  Hence "Re: Fwd: Order"
maps to "order" (re: precedes fwd: in the list), while "Fwd: Re: Order" and
"Re: Re: Order" keep their second marker, and "Order #1", "Re: Order #1",
"FW: Order #1" all map to the conversation key "order #1". -/
theorem C5_amended :
    cleanSubjectKey "Re: Fwd: Order" = "order" ∧
    cleanSubjectKey "Fwd: Re: Order" = "re: order" ∧
    cleanSubjectKey "Re: Re: Order" = "re: order" ∧
    groupByConversation [subjOrder1, subjReOrder1, subjFwOrder1] =
      .ok [("order #1", [subjOrder1, subjReOrder1, subjFwOrder1])] := by
  refine ⟨by decide, by decide, by decide, by decide⟩

/-! ## Event-trace lemmas -/

theorem query_not_shared {e : Ev} (h : isQueryEv e = true) : isSharedEv e = false := by
  cases e <;> simp_all [isQueryEv, isSharedEv]

theorem ensureConnected_evs (cfg : Config) (w : World) (st : ClientState) :
    ∀ e ∈ (ensureConnected cfg w st).2.2, e = Ev.probe ∨ e = Ev.connectAttempt := by
  intro e he
  unfold ensureConnected isConnectionAlive connect at he
  by_cases hc : st.connected && st.hasNamespace <;>
    by_cases ha : w.connectionAlive <;>
      by_cases hs : w.connectSucceeds <;>
        simp [hc, ha, hs, List.mem_replicate] at he <;>
          tauto

theorem searchFolderRestrict_evs (cfg : Config) (w : World) (f : Folder)
    (text mt : String) (maxR : Int) (ids : List String) :
    ∀ e ∈ (searchFolderRestrict cfg w f text mt maxR ids).2.2, isQueryEv e = true := by
  intro e he
  unfold searchFolderRestrict at he
  by_cases h1 : f.restrictOk <;> by_cases h2 : f.subjectRestrictOk <;>
    simp [h1, h2] at he <;>
      first
      | (rw [he]; rfl)
      | (rcases he with he | he <;> (rw [he]; rfl))

theorem foldFolders_evs (cfg : Config) (w : World) (text mt : String) (maxR : Int) :
    ∀ fs acc ids, ∀ e ∈ (foldFolders cfg w text mt maxR fs acc ids).2,
      isQueryEv e = true := by
  intro fs
  induction fs with
  | nil => intro acc ids e he; simp [foldFolders] at he
  | cons f rest ih =>
      intro acc ids e he
      by_cases hb : maxR ≤ (acc.length : Int)
      · simp [foldFolders, hb] at he
      · rcases hS : searchFolderRestrict cfg w f text mt (maxR - acc.length) ids
          with ⟨es, ids2, evs⟩
        rcases hF : foldFolders cfg w text mt maxR rest (acc ++ es) ids2
          with ⟨accF, evs2⟩
        simp [foldFolders, hb, hS, hF] at he
        rcases he with he | he
        · have := searchFolderRestrict_evs cfg w f text mt (maxR - acc.length) ids e
          rw [hS] at this
          exact this he
        · have := ih (acc ++ es) ids2 e
          rw [hF] at this
          exact this he

theorem comprehensive_not_shared (cfg : Config) (w : World) (inbox : Folder)
    (sib : List Folder) (text mt : String) (maxR : Int) :
    ∀ e ∈ (searchMailboxComprehensive cfg w inbox sib text mt maxR).2,
      isSharedEv e = false := by
  intro e he
  unfold searchMailboxComprehensive at he
  by_cases hsent : cfg.includeSentItems
  · rcases hf : findFolderNamed sib "Sent Items" with _ | f
    · simp [hsent, hf] at he
      rcases he with he | he | he
      · rw [he]; rfl
      · rw [he]; rfl
      · exact query_not_shared (foldFolders_evs cfg w text mt maxR _ [] [] e he)
    · simp [hsent, hf] at he
      rcases he with he | he | he
      · rw [he]; rfl
      · rw [he]; rfl
      · exact query_not_shared (foldFolders_evs cfg w text mt maxR _ [] [] e he)
  · simp [hsent] at he
    rcases he with he | he
    · rw [he]; rfl
    · exact query_not_shared (foldFolders_evs cfg w text mt maxR _ [] [] e he)

theorem ensureConnected_cache (cfg : Config) (w : World) (st : ClientState)
    (hc : st.searchCache = []) :
    ((ensureConnected cfg w st).2.1).searchCache = [] := by
  unfold ensureConnected isConnectionAlive connect
  by_cases h1 : st.connected && st.hasNamespace <;>
    by_cases h2 : w.connectionAlive <;>
      by_cases h3 : w.connectSucceeds <;>
        simp [h1, h2, h3, hc]

/-- The event trace of search_emails is the connection-handling trace alone (failed
connection or cache hit) or that trace followed by the personal-pass and
shared-pass traces. -/
theorem searchEmails_evs (cfg : Config) (w : World) (st : ClientState)
    (text : String) (incP incS : Bool) :
    (searchEmails cfg w st text incP incS).2.2 = (ensureConnected cfg w st).2.2 ∨
    (searchEmails cfg w st text incP incS).2.2 =
      (ensureConnected cfg w st).2.2 ++
        (personalPass cfg w text incP cfg.maxSearchResults).2 ++
        (sharedPass cfg w ((ensureConnected cfg w st).2.1) text incS
          (cfg.maxSearchResults -
            ((personalPass cfg w text incP cfg.maxSearchResults).1.length : Int))).2.2 := by
  unfold searchEmails
  rcases hE : ensureConnected cfg w st with ⟨ok, st1, ev1⟩
  by_cases hok : ok
  · rcases hhit : freshCacheHit st1.searchCache (cacheKeyOf cfg text incP incS)
        w.now with _ | d
    · rcases hP : personalPass cfg w text incP cfg.maxSearchResults with ⟨pes, pevs⟩
      rcases hS : sharedPass cfg w st1 text incS
          (cfg.maxSearchResults - (pes.length : Int)) with ⟨ses, st2, sevs⟩
      rcases hsort : sortDescE (fun a b => skCmp (clientSortKey a) (clientSortKey b))
          (pes ++ ses) with er | sorted
      · simp [hok, hhit, hP, hS, hsort]
      · simp [hok, hhit, hP, hS, hsort]
    · simp [hok, hhit]
  · simp [hok]

theorem personalPass_not_shared (cfg : Config) (w : World) (text : String)
    (incP : Bool) (maxR : Int) :
    ∀ e ∈ (personalPass cfg w text incP maxR).2, isSharedEv e = false := by
  intro e he
  unfold personalPass at he
  by_cases hp : incP
  · rcases hC : searchMailboxComprehensive cfg w w.personalInbox w.personalSiblings
        text "personal" maxR with ⟨es, evs⟩
    simp [hp, hC] at he
    rcases he with he | he
    · rw [he]; rfl
    · have := comprehensive_not_shared cfg w w.personalInbox w.personalSiblings
        text "personal" maxR e
      rw [hC] at this
      exact this he
  · simp [hp] at he

/-! ## C4: placeholder shared-mailbox address -/

/-- Claim C4 counterexample.  With the placeholder address orders@example.com,
`_shared_mailbox_configured` is false — yet check_access reports
shared_mailbox.configured == true (line 124 tests only raw truthiness of the
address) and even attempts shared-identity resolution (CreateRecipient),
contradicting the claimed `configured == false`. -/
theorem C4_counterexample :
    sharedMailboxConfigured placeholderCfg = false ∧
    accessSharedConfigured (checkAccess placeholderCfg liveWorld connectedState).1
      = true ∧
    Ev.createRecipient ∈ (checkAccess placeholderCfg liveWorld connectedState).2.2 := by
  refine ⟨by decide, by decide, by decide⟩

/-- Claim C4, amended.  When `_shared_mailbox_configured` is false (empty address or
a placeholder containing "example.com" or "your-shared"), every search leaves the
shared scope untouched: the search_emails event trace contains no shared-identity
resolution and no shared-store folder access.  check_access, however, reports
shared_configured as the raw truthiness of the configured address — false for the
empty placeholder but true for the non-empty ones, for which it also attempts
resolution. -/
theorem C4_amended (cfg : Config) (w : World) (st : ClientState) (text : String)
    (incP incS : Bool) (h : sharedMailboxConfigured cfg = false) :
    (∀ e ∈ (searchEmails cfg w st text incP incS).2.2, isSharedEv e = false) ∧
    (∀ r st2 evs2, checkAccess cfg w st = (.report r, st2, evs2) →
      (r.sharedConfigured = true ↔ (cfg.sharedMailboxEmail.getD "") ≠ "")) := by
  constructor
  · intro e he
    rcases searchEmails_evs cfg w st text incP incS with hevs | hevs
    · rw [hevs] at he
      rcases ensureConnected_evs cfg w st e he with h1 | h1 <;> (rw [h1]; rfl)
    · rw [hevs] at he
      have hSP : (sharedPass cfg w ((ensureConnected cfg w st).2.1) text incS
          (cfg.maxSearchResults -
            ((personalPass cfg w text incP cfg.maxSearchResults).1.length : Int))).2.2
          = [] := by
        unfold sharedPass
        simp [h]
      rw [hSP] at he
      simp at he
      rcases he with he | he
      · rcases ensureConnected_evs cfg w st e he with h1 | h1 <;> (rw [h1]; rfl)
      · exact personalPass_not_shared cfg w text incP cfg.maxSearchResults e he
  · intro r st2 evs2 heq
    unfold checkAccess at heq
    rcases hE : ensureConnected cfg w st with ⟨ok, st1, ev1⟩
    rw [hE] at heq
    by_cases hok : ok
    · simp only [hok, Bool.not_true, Bool.false_eq_true, if_false] at heq
      repeat' split at heq
      all_goals
        simp only [Prod.mk.injEq, AccessResult.report.injEq] at heq
      all_goals
        obtain ⟨h1, -, -⟩ := heq
      all_goals
        subst h1
      all_goals
        simp [decide_eq_true_iff]
    · simp [hok] at heq

/-- Witness for C4_amended at the concrete placeholder configuration. -/
theorem C4_amended_witness :
    sharedMailboxConfigured placeholderCfg = false ∧
    (∀ e ∈ (searchEmails placeholderCfg liveWorld connectedState "hello" true
        true).2.2, isSharedEv e = false) :=
  ⟨by decide,
   (C4_amended placeholderCfg liveWorld connectedState "hello" true true
     (by decide)).1⟩

/-! ## C8: nonpositive max_search_results -/

theorem foldFolders_stop (cfg : Config) (w : World) (text mt : String) (maxR : Int)
    (fs : List Folder) (acc : List MailRecord) (ids : List String)
    (h : maxR ≤ (acc.length : Int)) :
    foldFolders cfg w text mt maxR fs acc ids = (acc, []) := by
  cases fs with
  | nil => rfl
  | cons f rest => simp [foldFolders, h]

/-- A comprehensive pass with no remaining budget yields nothing and issues no
folder query (the folder list is still collected and Sent Items still looked up). -/
theorem comprehensive_nonpos (cfg : Config) (w : World) (inbox : Folder)
    (sib : List Folder) (text mt : String) (maxR : Int) (h : maxR ≤ 0) :
    (searchMailboxComprehensive cfg w inbox sib text mt maxR).1 = [] ∧
    ∀ e ∈ (searchMailboxComprehensive cfg w inbox sib text mt maxR).2,
      isQueryEv e = false := by
  have h0 : maxR ≤ ((([] : List MailRecord).length : Nat) : Int) := by simpa using h
  unfold searchMailboxComprehensive
  by_cases hsent : cfg.includeSentItems
  · rcases hf : findFolderNamed sib "Sent Items" with _ | f <;>
      simp [hsent, hf, foldFolders_stop cfg w text mt maxR _ [] [] h0, isQueryEv]
  · simp [hsent, foldFolders_stop cfg w text mt maxR _ [] [] h0, isQueryEv]

theorem sharedBlock_nonpos (cfg : Config) (w : World) (st : ClientState)
    (text : String) (budget : Int) (h : budget ≤ 0) :
    (sharedBlock cfg w st text budget).1 = [] ∧
    ∀ e ∈ (sharedBlock cfg w st text budget).2.2, isQueryEv e = false := by
  unfold sharedBlock
  by_cases h1 : w.createRecipientOk
  · rcases h2 : st.sharedRecipientResolved with _ | r
    · by_cases h3 : w.sharedResolves
      · by_cases h4 : w.getSharedFolderOk
        · rcases hC : searchMailboxComprehensive cfg w w.sharedInbox w.sharedSiblings
              text "shared" budget with ⟨es, evs⟩
          have hcn := comprehensive_nonpos cfg w w.sharedInbox w.sharedSiblings
            text "shared" budget h
          rw [hC] at hcn
          simp [h1, h2, h3, h4, hC, hcn.1, isQueryEv]
          exact fun e he => hcn.2 e he
        · simp [h1, h2, h3, h4, isQueryEv]
      · simp [h1, h2, h3, isQueryEv]
    · by_cases h3 : r
      · by_cases h4 : w.getSharedFolderOk
        · rcases hC : searchMailboxComprehensive cfg w w.sharedInbox w.sharedSiblings
              text "shared" budget with ⟨es, evs⟩
          have hcn := comprehensive_nonpos cfg w w.sharedInbox w.sharedSiblings
            text "shared" budget h
          rw [hC] at hcn
          simp [h1, h2, h3, h4, hC, hcn.1, isQueryEv]
          exact fun e he => hcn.2 e he
        · simp [h1, h2, h3, h4, isQueryEv]
      · simp [h1, h2, h3]
  · simp [h1, isQueryEv]

/-- Claim C8 counterexample.  With max_search_results configured to 0, the search
does yield an empty list — but the session is touched on the way: the liveness
probe runs, the personal default folder is opened and its folder tree enumerated,
contradicting the claim that the session is left untouched. -/
theorem C8_counterexample :
    (searchEmails zeroCfg dupWorld connectedState "hello" true true).1 = .ok [] ∧
    Ev.probe ∈ (searchEmails zeroCfg dupWorld connectedState "hello" true true).2.2 ∧
    Ev.getDefaultFolder ∈
      (searchEmails zeroCfg dupWorld connectedState "hello" true true).2.2 ∧
    Ev.enumFolders "Inbox" ∈
      (searchEmails zeroCfg dupWorld connectedState "hello" true true).2.2 := by
  refine ⟨by decide, by decide, by decide, by decide⟩

/-- Claim C8, amended.  A search with max_search_results ≤ 0 (and no usable cache
entry) returns the empty list and issues no per-folder query — but it does touch
the session: the connection is checked and the folder tree is still enumerated
before the budget test stops the folder loop. -/
theorem C8_amended (cfg : Config) (w : World) (st : ClientState) (text : String)
    (incP incS : Bool) (hm : cfg.maxSearchResults ≤ 0)
    (hc : st.searchCache = []) :
    (searchEmails cfg w st text incP incS).1 = .ok [] ∧
    ∀ e ∈ (searchEmails cfg w st text incP incS).2.2, isQueryEv e = false := by
  unfold searchEmails
  rcases hE : ensureConnected cfg w st with ⟨ok, st1, ev1⟩
  have hens : ∀ e ∈ ev1, isQueryEv e = false := by
    intro e he
    have := ensureConnected_evs cfg w st e (by rw [hE]; exact he)
    rcases this with h1 | h1 <;> (rw [h1]; rfl)
  have hcache1 : st1.searchCache = [] := by
    have := ensureConnected_cache cfg w st hc
    rw [hE] at this
    exact this
  by_cases hok : ok
  · have hhit : freshCacheHit st1.searchCache (cacheKeyOf cfg text incP incS) w.now
        = none := by
      rw [hcache1]; rfl
    have hPP : personalPass cfg w text incP cfg.maxSearchResults =
        ([], (personalPass cfg w text incP cfg.maxSearchResults).2) := by
      unfold personalPass
      by_cases hp : incP
      · rcases hC : searchMailboxComprehensive cfg w w.personalInbox
            w.personalSiblings text "personal" cfg.maxSearchResults with ⟨es, evs⟩
        have hcn := comprehensive_nonpos cfg w w.personalInbox w.personalSiblings
          text "personal" cfg.maxSearchResults hm
        rw [hC] at hcn
        simp [hp, hC]
        exact hcn.1
      · simp [hp]
    have hPevs : ∀ e ∈ (personalPass cfg w text incP cfg.maxSearchResults).2,
        isQueryEv e = false := by
      intro e he
      unfold personalPass at he
      by_cases hp : incP
      · rcases hC : searchMailboxComprehensive cfg w w.personalInbox
            w.personalSiblings text "personal" cfg.maxSearchResults with ⟨es, evs⟩
        have hcn := comprehensive_nonpos cfg w w.personalInbox w.personalSiblings
          text "personal" cfg.maxSearchResults hm
        rw [hC] at hcn
        simp [hp, hC] at he
        rcases he with he | he
        · rw [he]; rfl
        · exact hcn.2 e he
      · simp [hp] at he
    rcases hP : personalPass cfg w text incP cfg.maxSearchResults with ⟨pes, pevs⟩
    have hpes : pes = [] := by rw [hP] at hPP; exact congrArg Prod.fst hPP
    subst hpes
    have hSevs : ∀ e ∈ (sharedPass cfg w st1 text incS
        (cfg.maxSearchResults - (([] : List MailRecord).length : Int))).2.2,
        isQueryEv e = false := by
      intro e he
      unfold sharedPass at he
      by_cases hg : incS && sharedMailboxConfigured cfg
      · simp only [hg, if_true] at he
        exact (sharedBlock_nonpos cfg w st1 text _ (by simpa using hm)).2 e he
      · simp [hg] at he
    have hSres : (sharedPass cfg w st1 text incS
        (cfg.maxSearchResults - (([] : List MailRecord).length : Int))).1 = [] := by
      unfold sharedPass
      by_cases hg : incS && sharedMailboxConfigured cfg
      · simp only [hg, if_true]
        exact (sharedBlock_nonpos cfg w st1 text _ (by simpa using hm)).1
      · simp [hg]
    rcases hS : sharedPass cfg w st1 text incS
        (cfg.maxSearchResults - (([] : List MailRecord).length : Int))
        with ⟨ses, st2, sevs⟩
    have hses : ses = [] := by rw [hS] at hSres; exact hSres
    subst hses
    simp only [hok, Bool.not_true, Bool.false_eq_true, if_false, hhit, hP, hS]
    have hsort : sortDescE (fun a b => skCmp (clientSortKey a) (clientSortKey b))
        (([] : List MailRecord) ++ []) = .ok [] := rfl
    simp only [hsort]
    constructor
    · simp [pySliceTo]
    · intro e he
      simp at he
      rcases he with he | he | he
      · exact hens e he
      · exact hPevs e (by rw [hP]; exact he)
      · exact hSevs e (by rw [hS]; exact he)
  · simp only [hok, Bool.not_false, Bool.not_eq_true] at *
    simp [hok]
    intro e he
    exact hens e he

/-- Witness for C8_amended at the concrete zero-budget configuration. -/
theorem C8_amended_witness :
    (zeroCfg.maxSearchResults ≤ 0 ∧ connectedState.searchCache = []) ∧
    (searchEmails zeroCfg dupWorld connectedState "hello" true true).1 = .ok [] :=
  ⟨⟨by decide, rfl⟩,
   (C8_amended zeroCfg dupWorld connectedState "hello" true true (by decide) rfl).1⟩

/-! ## C9: tool payloads at the operation boundary -/

theorem chainHandler_wf (cfg : Config) (w : World) (st : ClientState) (text : String)
    (incP incS : Bool) (comFault : Option String) :
    WfPayload (handleGetEmailChain cfg w st text incP incS comFault).1 := by
  unfold handleGetEmailChain
  rcases comFault with _ | e
  · rcases hR : searchEmails cfg w st text incP incS with ⟨res, st1, evs⟩
    rcases res with err | emails
    · simp [WfPayload, payloadStatus, payloadMessage]
    · rcases hF : formatEmailChain cfg emails text with err | c
      · simp [hF, WfPayload, payloadStatus, payloadMessage]
      · rcases c with ⟨ss, msg⟩ | ⟨ss, sm, convs, alls⟩ <;>
          simp [hF, WfPayload, payloadStatus, payloadMessage]
  · simp [WfPayload, payloadStatus, payloadMessage]

theorem contactsHandler_wf (cfg : Config) (w : World) (st : ClientState)
    (text : String) (incP incS : Bool) (comFault : Option String) :
    WfPayload (handleGetEmailContacts cfg w st text incP incS comFault).1 := by
  unfold handleGetEmailContacts
  rcases comFault with _ | e
  · rcases hR : searchEmails cfg w st text incP incS with ⟨res, st1, evs⟩
    rcases res with err | emails
    · simp [WfPayload, payloadStatus, payloadMessage]
    · rcases hP : getParticipants emails with err | ps
      · simp [hP, WfPayload, payloadStatus, payloadMessage]
      · by_cases hne : emails.isEmpty <;>
          simp [hP, hne, WfPayload, payloadStatus, payloadMessage]
  · simp [WfPayload, payloadStatus, payloadMessage]

theorem accessHandler_wf (cfg : Config) (w : World) (st : ClientState)
    (comFault : Option String) :
    WfPayload (handleCheckMailboxAccess cfg w st comFault).1 := by
  unfold handleCheckMailboxAccess
  rcases comFault with _ | e
  · rcases hR : checkAccess cfg w st with ⟨res, st1, evs⟩
    simp [WfPayload, payloadStatus, payloadMessage]
  · simp [WfPayload, payloadStatus, payloadMessage]

/-- Claim C9 counterexample.  A fault delivered by the COM executor during
check_mailbox_access is caught by the handler and turned into an error payload —
but that payload carries no tool slot and its message does not even mention the
operation name, contradicting the claim that every internal error reaches the
caller as a payload carrying the operation name. -/
theorem C9_counterexample :
    (callTool {} liveWorld connectedState "check_mailbox_access" {}
        (some "boom")).1 =
      .accessError "Could not check mailbox access: boom" ∧
    payloadToolName (callTool {} liveWorld connectedState "check_mailbox_access" {}
      (some "boom")).1 = none ∧
    payloadStatus (callTool {} liveWorld connectedState "check_mailbox_access" {}
      (some "boom")).1 = "error" ∧
    pyInStr "check_mailbox_access" "Could not check mailbox access: boom" = false := by
  refine ⟨by decide, by decide, by decide, by decide⟩

/-- Claim C9, amended.  Every tool invocation, for every argument mapping and every
outcome of the underlying operations, returns exactly one well-formed payload: the
status is success, no_emails_found or error, and every error payload carries a
message — so the caller never receives no response.  However, only the dispatch
boundary of call_tool (missing search_text, unknown tool) includes the operation
name in the error payload; errors caught inside the three handlers yield payloads
without the operation name. -/
theorem C9_amended (cfg : Config) (w : World) (st : ClientState) (name : String)
    (args : ToolArgs) (comFault : Option String) :
    WfPayload (callTool cfg w st name args comFault).1 := by
  unfold callTool
  by_cases h1 : name = "check_mailbox_access"
  · simp only [h1, if_true]
    exact accessHandler_wf cfg w st comFault
  · by_cases h2 : name = "get_email_chain"
    · simp only [h1, h2, if_false, if_true]
      rcases hT : args.searchText.get? with _ | text
      · simp [WfPayload, payloadStatus, payloadMessage]
      · by_cases hte : text = "" <;>
          simp only [hte, if_true, if_false]
        · simp [WfPayload, payloadStatus, payloadMessage]
        · exact chainHandler_wf cfg w st text _ _ comFault
    · by_cases h3 : name = "get_email_contacts"
      · simp only [h1, h2, h3, if_false, if_true]
        rcases hT : args.searchText.get? with _ | text
        · simp [WfPayload, payloadStatus, payloadMessage]
        · by_cases hte : text = "" <;>
            simp only [hte, if_true, if_false]
          · simp [WfPayload, payloadStatus, payloadMessage]
          · exact contactsHandler_wf cfg w st text _ _ comFault
      · simp only [h1, h2, h3, if_false]
        simp [WfPayload, payloadStatus, payloadMessage]

/-! ## Result invariants of the search passes (C2, C10) -/

theorem extract_fields (cfg : Config) (w : World) (it : Item) (fn mt : String)
    (r : MailRecord) (h : extractEmailData cfg w it fn mt = some r) :
    r.mailbox_type = Pyv.val mt ∧ r.entry_id = Pyv.val (it.entryID.getD "") ∧
    ∃ d, r.received_time = Pyv.val d := by
  unfold extractEmailData at h
  by_cases hok : it.extractOk
  · simp only [hok, Bool.not_true, Bool.false_eq_true, if_false, Option.some.injEq]
      at h
    subst h
    exact ⟨rfl, rfl, _, rfl⟩
  · simp [hok] at h

/-- Extraction always substitutes the naive now() when ReceivedTime is missing. -/
theorem extract_now_fallback (cfg : Config) (w : World) (it : Item) (fn mt : String)
    (r : MailRecord) (hrt : it.receivedTime = none)
    (h : extractEmailData cfg w it fn mt = some r) :
    r.received_time = Pyv.val (.naive w.now) := by
  unfold extractEmailData at h
  by_cases hok : it.extractOk
  · simp only [hok, Bool.not_true, Bool.false_eq_true, if_false, Option.some.injEq]
      at h
    subst h
    simp [hrt, Option.getD]
  · simp [hok] at h

theorem restrictLoop_inv (cfg : Config) (w : World) (fn mt : String) (maxR : Int) :
    ∀ (items : List Item) (cnt : Nat) (ids : List String),
      (∀ r ∈ (restrictLoop cfg w fn mt maxR items cnt ids).1,
          r.mailbox_type = Pyv.val mt ∧
          (∃ d, r.received_time = Pyv.val d) ∧
          idStr r ≠ "" ∧ idStr r ∉ ids ∧
          idStr r ∈ (restrictLoop cfg w fn mt maxR items cnt ids).2) ∧
      ((restrictLoop cfg w fn mt maxR items cnt ids).1.map idStr).Nodup ∧
      (∀ x ∈ ids, x ∈ (restrictLoop cfg w fn mt maxR items cnt ids).2) := by
  intro items
  induction items with
  | nil =>
      intro cnt ids
      simp [restrictLoop]
  | cons it rest ih =>
      intro cnt ids
      by_cases hb : maxR ≤ (cnt : Int)
      · simp [restrictLoop, hb]
      · by_cases hg : (it.entryID.getD "" ≠ "" && !(ids.contains (it.entryID.getD "")))
          = true
        · rcases hx : extractEmailData cfg w it fn mt with _ | r
          · have hrec := ih cnt ids
            simp only [restrictLoop, hb, if_false, hg, if_true, hx]
            exact hrec
          · rcases hrl : restrictLoop cfg w fn mt maxR rest (cnt + 1)
                (it.entryID.getD "" :: ids) with ⟨es, ids2⟩
            have hrec := ih (cnt + 1) (it.entryID.getD "" :: ids)
            rw [hrl] at hrec
            obtain ⟨ih1, ih2, ih3⟩ := hrec
            obtain ⟨hmt, hid, hdt⟩ := extract_fields cfg w it fn mt r hx
            have hids : idStr r = it.entryID.getD "" := by
              unfold idStr
              rw [hid]
            simp only [Bool.and_eq_true] at hg
            obtain ⟨hne0, hnmem0⟩ := hg
            have hne : it.entryID.getD "" ≠ "" := by simpa using hne0
            have hnmem : it.entryID.getD "" ∉ ids := by simpa using hnmem0
            have hcond : (it.entryID.getD "" ≠ "" &&
                !(ids.contains (it.entryID.getD ""))) = true := by
              simp [hne, hnmem]
            have hgoal : restrictLoop cfg w fn mt maxR (it :: rest) cnt ids
                = (r :: es, ids2) := by
              simp only [restrictLoop]
              rw [if_neg hb, if_pos hcond, hx, hrl]
            rw [hgoal]
            refine ⟨?_, ?_, ?_⟩
            · intro r2 hr2
              rcases List.mem_cons.mp hr2 with hr2 | hr2
              · subst hr2
                refine ⟨hmt, hdt, ?_, ?_, ?_⟩
                · rw [hids]; exact hne
                · rw [hids]; exact hnmem
                · rw [hids]
                  exact ih3 _ (List.mem_cons_self _ _)
              · obtain ⟨g1, g2, g3, g4, g5⟩ := ih1 r2 hr2
                refine ⟨g1, g2, g3, ?_, g5⟩
                intro hmem
                exact g4 (List.mem_cons_of_mem _ hmem)
            · simp only [List.map_cons, List.nodup_cons]
              refine ⟨?_, ih2⟩
              intro hmem
              rcases List.mem_map.mp hmem with ⟨r2, hr2, hr2e⟩
              obtain ⟨-, -, -, g4, -⟩ := ih1 r2 hr2
              rw [hr2e, hids] at g4
              exact g4 (List.mem_cons_self _ _)
            · intro x hx2
              exact ih3 x (List.mem_cons_of_mem _ hx2)
        · have hrec := ih cnt ids
          simp only [restrictLoop, hb, if_false, hg] at *
          exact hrec

theorem searchFolderRestrict_inv (cfg : Config) (w : World) (f : Folder)
    (text mt : String) (maxR : Int) (ids : List String) :
    (∀ r ∈ (searchFolderRestrict cfg w f text mt maxR ids).1,
        r.mailbox_type = Pyv.val mt ∧
        (∃ d, r.received_time = Pyv.val d) ∧
        idStr r ≠ "" ∧ idStr r ∉ ids ∧
        idStr r ∈ (searchFolderRestrict cfg w f text mt maxR ids).2.1) ∧
    ((searchFolderRestrict cfg w f text mt maxR ids).1.map idStr).Nodup ∧
    (∀ x ∈ ids, x ∈ (searchFolderRestrict cfg w f text mt maxR ids).2.1) := by
  unfold searchFolderRestrict
  by_cases h1 : f.restrictOk
  · simp only [h1, if_true]
    rcases hrl : restrictLoop cfg w f.name mt maxR
        ((comSortDesc f.items).filter (itemMatches text)) 0 ids with ⟨es, ids2⟩
    have := restrictLoop_inv cfg w f.name mt maxR
      ((comSortDesc f.items).filter (itemMatches text)) 0 ids
    rw [hrl] at this
    exact this
  · by_cases h2 : f.subjectRestrictOk
    · simp only [h1, h2, if_false, if_true]
      rcases hrl : restrictLoop cfg w f.name mt maxR
          ((comSortDesc f.items).filter (itemMatchesSubject text)) 0 ids
          with ⟨es, ids2⟩
      have := restrictLoop_inv cfg w f.name mt maxR
        ((comSortDesc f.items).filter (itemMatchesSubject text)) 0 ids
      rw [hrl] at this
      exact this
    · simp [h1, h2]

theorem foldFolders_inv (cfg : Config) (w : World) (text mt : String) (maxR : Int) :
    ∀ (fs : List Folder) (acc : List MailRecord) (ids : List String),
      (∀ r ∈ acc, r.mailbox_type = Pyv.val mt ∧
          (∃ d, r.received_time = Pyv.val d) ∧ idStr r ≠ "" ∧ idStr r ∈ ids) →
      (acc.map idStr).Nodup →
      (∀ r ∈ (foldFolders cfg w text mt maxR fs acc ids).1,
          r.mailbox_type = Pyv.val mt ∧
          (∃ d, r.received_time = Pyv.val d) ∧ idStr r ≠ "") ∧
      ((foldFolders cfg w text mt maxR fs acc ids).1.map idStr).Nodup := by
  intro fs
  induction fs with
  | nil =>
      intro acc ids hacc hnd
      simp only [foldFolders]
      exact ⟨fun r hr => ⟨(hacc r hr).1, (hacc r hr).2.1, (hacc r hr).2.2.1⟩, hnd⟩
  | cons f rest ih =>
      intro acc ids hacc hnd
      by_cases hb : maxR ≤ (acc.length : Int)
      · simp only [foldFolders, hb, if_true]
        exact ⟨fun r hr => ⟨(hacc r hr).1, (hacc r hr).2.1, (hacc r hr).2.2.1⟩, hnd⟩
      · rcases hS : searchFolderRestrict cfg w f text mt (maxR - acc.length) ids
            with ⟨es, ids2, evs⟩
        have hSP := searchFolderRestrict_inv cfg w f text mt (maxR - acc.length) ids
        rw [hS] at hSP
        obtain ⟨hs1, hs2, hs3⟩ := hSP
        rcases hF : foldFolders cfg w text mt maxR rest (acc ++ es) ids2
            with ⟨accF, evs2⟩
        have hacc2 : ∀ r ∈ acc ++ es, r.mailbox_type = Pyv.val mt ∧
            (∃ d, r.received_time = Pyv.val d) ∧ idStr r ≠ "" ∧ idStr r ∈ ids2 := by
          intro r hr
          rcases List.mem_append.mp hr with hr | hr
          · obtain ⟨g1, g2, g3, g4⟩ := hacc r hr
            exact ⟨g1, g2, g3, hs3 _ g4⟩
          · obtain ⟨g1, g2, g3, g4, g5⟩ := hs1 r hr
            exact ⟨g1, g2, g3, g5⟩
        have hnd2 : ((acc ++ es).map idStr).Nodup := by
          rw [List.map_append]
          refine List.Nodup.append hnd hs2 ?_
          intro x hx1 hx2
          rcases List.mem_map.mp hx1 with ⟨r1, hr1, he1⟩
          rcases List.mem_map.mp hx2 with ⟨r2, hr2, he2⟩
          obtain ⟨-, -, -, hin⟩ := hacc r1 hr1
          obtain ⟨-, -, -, hnin, -⟩ := hs1 r2 hr2
          apply hnin
          rw [he2, ← he1]
          exact hin
        have := ih (acc ++ es) ids2 hacc2 hnd2
        rw [hF] at this
        have hgoal : foldFolders cfg w text mt maxR (f :: rest) acc ids
            = (accF, evs ++ evs2) := by
          simp only [foldFolders]
          rw [if_neg hb, hS, hF]
        rw [hgoal]
        exact this

/-- The whole-pass invariant: records of one comprehensive pass carry the pass
scope tag, a present timestamp, and pairwise-distinct nonempty entry ids. -/
theorem comprehensive_inv (cfg : Config) (w : World) (inbox : Folder)
    (sib : List Folder) (text mt : String) (maxR : Int) :
    (∀ r ∈ (searchMailboxComprehensive cfg w inbox sib text mt maxR).1,
        r.mailbox_type = Pyv.val mt ∧
        (∃ d, r.received_time = Pyv.val d) ∧ idStr r ≠ "") ∧
    ((searchMailboxComprehensive cfg w inbox sib text mt maxR).1.map idStr).Nodup := by
  unfold searchMailboxComprehensive
  by_cases hsent : cfg.includeSentItems
  · rcases hf : findFolderNamed sib "Sent Items" with _ | f
    · simp only [hsent, hf]
      simp only [if_true]
      rcases hFF : foldFolders cfg w text mt maxR (collectSubfolders inbox) [] []
          with ⟨emails, evs⟩
      have hinv := foldFolders_inv cfg w text mt maxR (collectSubfolders inbox)
        [] [] (by simp) (by simp)
      rw [hFF] at hinv
      exact hinv
    · simp only [hsent, hf]
      simp only [if_true]
      rcases hFF : foldFolders cfg w text mt maxR (collectSubfolders inbox ++ [f])
          [] [] with ⟨emails, evs⟩
      have hinv := foldFolders_inv cfg w text mt maxR
        (collectSubfolders inbox ++ [f]) [] [] (by simp) (by simp)
      rw [hFF] at hinv
      exact hinv
  · have hsent2 : cfg.includeSentItems = false := by simpa using hsent
    simp only [hsent2]
    simp only [Bool.false_eq_true, if_false]
    rcases hFF : foldFolders cfg w text mt maxR (collectSubfolders inbox) [] []
        with ⟨emails, evs⟩
    have hinv := foldFolders_inv cfg w text mt maxR (collectSubfolders inbox)
      [] [] (by simp) (by simp)
    rw [hFF] at hinv
    exact hinv

/-! ## Permutation facts about the embedded sorts -/

theorem insertDescE_perm {α : Type} (cmp : α → α → Except String Ordering) (x : α) :
    ∀ (l out : List α), insertDescE cmp x l = .ok out → out.Perm (x :: l) := by
  intro l
  induction l with
  | nil =>
      intro out h
      simp [insertDescE] at h
      rw [← h]
  | cons y ys ih =>
      intro out h
      unfold insertDescE at h
      rcases hc : cmp x y with e | c
      · rw [hc] at h; simp [Except.bind, bind] at h
      · rw [hc] at h
        simp only [Except.bind, bind] at h
        by_cases hgt : c = Ordering.gt
        · simp [hgt] at h
          rw [← h]
        · simp only [hgt, if_false] at h
          rcases hrec : insertDescE cmp x ys with e2 | zs
          · rw [hrec] at h; simp at h
          · rw [hrec] at h
            simp at h
            rw [← h]
            have := ih zs hrec
            exact (List.Perm.cons y this).trans (List.Perm.swap x y ys)

theorem sortDescE_perm {α : Type} (cmp : α → α → Except String Ordering) :
    ∀ (l acc out : List α),
      List.foldlM (fun acc x => insertDescE cmp x acc) acc l = .ok out →
      out.Perm (acc ++ l) := by
  intro l
  induction l with
  | nil =>
      intro acc out h
      simp only [List.foldlM] at h
      have h2 : Except.ok (ε := String) acc = Except.ok out := h
      injection h2 with h3
      subst h3
      simp
  | cons x xs ih =>
      intro acc out h
      simp only [List.foldlM] at h
      rcases h1 : insertDescE cmp x acc with e | acc2
      · rw [h1] at h; simp [Except.bind, bind] at h
      · rw [h1] at h
        simp only [Except.bind, bind] at h
        have h2 := ih acc2 out h
        have h3 := insertDescE_perm cmp x acc acc2 h1
        exact h2.trans ((h3.append_right xs).trans List.perm_middle.symm)

/-- A successful search_emails sort returns a permutation of its input. -/
theorem sortDescE_perm_main {α : Type} (cmp : α → α → Except String Ordering)
    (l out : List α) (h : sortDescE cmp l = .ok out) : out.Perm l := by
  have := sortDescE_perm cmp l [] out h
  simpa using this

theorem pySliceTo_sublist {α : Type} (n : Int) (l : List α) :
    (pySliceTo n l).Sublist l := by
  unfold pySliceTo
  by_cases h : 0 ≤ n <;> simp [h, List.take_sublist]

theorem personalPass_inv (cfg : Config) (w : World) (text : String) (incP : Bool)
    (maxR : Int) :
    (∀ r ∈ (personalPass cfg w text incP maxR).1,
        r.mailbox_type = Pyv.val "personal" ∧
        (∃ d, r.received_time = Pyv.val d) ∧ idStr r ≠ "") ∧
    ((personalPass cfg w text incP maxR).1.map idStr).Nodup := by
  unfold personalPass
  by_cases hp : incP
  · simp only [hp, if_true]
    rcases hC : searchMailboxComprehensive cfg w w.personalInbox w.personalSiblings
        text "personal" maxR with ⟨es, evs⟩
    have := comprehensive_inv cfg w w.personalInbox w.personalSiblings text
      "personal" maxR
    rw [hC] at this
    exact this
  · simp [hp]

theorem sharedBlock_inv (cfg : Config) (w : World) (st : ClientState)
    (text : String) (budget : Int) :
    (∀ r ∈ (sharedBlock cfg w st text budget).1,
        r.mailbox_type = Pyv.val "shared" ∧
        (∃ d, r.received_time = Pyv.val d) ∧ idStr r ≠ "") ∧
    ((sharedBlock cfg w st text budget).1.map idStr).Nodup := by
  unfold sharedBlock
  by_cases h1 : w.createRecipientOk
  · rcases h2 : st.sharedRecipientResolved with _ | r
    · by_cases h3 : w.sharedResolves
      · by_cases h4 : w.getSharedFolderOk
        · simp only [h1, h2, h3, h4, if_true]
          rcases hC : searchMailboxComprehensive cfg w w.sharedInbox
              w.sharedSiblings text "shared" budget with ⟨es, evs⟩
          have := comprehensive_inv cfg w w.sharedInbox w.sharedSiblings text
            "shared" budget
          rw [hC] at this
          simpa using this
        · simp [h1, h2, h3, h4]
      · simp [h1, h2, h3]
    · by_cases h3 : r
      · by_cases h4 : w.getSharedFolderOk
        · simp only [h1, h2, h3, h4, if_true]
          rcases hC : searchMailboxComprehensive cfg w w.sharedInbox
              w.sharedSiblings text "shared" budget with ⟨es, evs⟩
          have := comprehensive_inv cfg w w.sharedInbox w.sharedSiblings text
            "shared" budget
          rw [hC] at this
          simpa using this
        · simp [h1, h2, h3, h4]
      · simp [h1, h2, h3]
  · simp [h1]

theorem sharedPass_inv (cfg : Config) (w : World) (st : ClientState)
    (text : String) (incS : Bool) (budget : Int) :
    (∀ r ∈ (sharedPass cfg w st text incS budget).1,
        r.mailbox_type = Pyv.val "shared" ∧
        (∃ d, r.received_time = Pyv.val d) ∧ idStr r ≠ "") ∧
    ((sharedPass cfg w st text incS budget).1.map idStr).Nodup := by
  unfold sharedPass
  by_cases hg : incS && sharedMailboxConfigured cfg
  · simp only [hg, if_true]
    exact sharedBlock_inv cfg w st text budget
  · simp [hg]

theorem personalPass_nonpos (cfg : Config) (w : World) (text : String)
    (incP : Bool) (maxR : Int) (h : maxR ≤ 0) :
    (personalPass cfg w text incP maxR).1 = [] := by
  unfold personalPass
  by_cases hp : incP
  · simp only [hp, if_true]
    rcases hC : searchMailboxComprehensive cfg w w.personalInbox w.personalSiblings
        text "personal" maxR with ⟨es, evs⟩
    have := comprehensive_nonpos cfg w w.personalInbox w.personalSiblings text
      "personal" maxR h
    rw [hC] at this
    exact this.1
  · simp [hp]

theorem sharedPass_nonpos (cfg : Config) (w : World) (st : ClientState)
    (text : String) (incS : Bool) (budget : Int) (h : budget ≤ 0) :
    (sharedPass cfg w st text incS budget).1 = [] := by
  unfold sharedPass
  by_cases hg : incS && sharedMailboxConfigured cfg
  · simp only [hg, if_true]
    exact (sharedBlock_nonpos cfg w st text budget h).1
  · simp [hg]

/-! ## C2: result cap and identity-token uniqueness -/

/-- Claim C2 counterexample.  The duplicate-tracking set found_ids is created afresh
inside each _search_mailbox_comprehensive call, so nothing deduplicates across the
personal and shared passes: a store pair presenting the same EntryID in both
mailboxes yields a result with two records carrying the same identity token —
contradicting the claimed cross-pass uniqueness. -/
theorem C2_counterexample :
    (resultList (searchEmails sharedCfg dupWorld connectedState "hello" true
      true)).map idStr = ["X", "X"] ∧
    ¬ ((resultList (searchEmails sharedCfg dupWorld connectedState "hello" true
      true)).map idStr).Nodup ∧
    (resultList (searchEmails sharedCfg dupWorld connectedState "hello" true
      true)).map (fun r => r.mailbox_type) =
      [Pyv.val "shared", Pyv.val "personal"] := by
  refine ⟨by decide, by decide, by decide⟩

/-- Claim C2, amended.  For every search from a state with an empty result cache,
the returned list has at most max(0, maxResults) elements, every record carries a
nonempty identity token, and identity tokens are unique WITHIN each mailbox pass
(among the personal-tagged records, and among the shared-tagged records); tokens
are not deduplicated across the two passes. -/
theorem C2_amended (cfg : Config) (w : World) (st : ClientState) (text : String)
    (incP incS : Bool) (hcache : st.searchCache = []) :
    ∀ l st2 evs, searchEmails cfg w st text incP incS = (.ok l, st2, evs) →
      ((l.length : Int) ≤ max 0 cfg.maxSearchResults) ∧
      ((l.filter (fun r => r.mailbox_type = Pyv.val "personal")).map idStr).Nodup ∧
      ((l.filter (fun r => r.mailbox_type = Pyv.val "shared")).map idStr).Nodup ∧
      (∀ r ∈ l, idStr r ≠ "") := by
  intro l st2 evs heq
  unfold searchEmails at heq
  rcases hE : ensureConnected cfg w st with ⟨ok, st1, ev1⟩
  rw [hE] at heq
  by_cases hok : ok
  · have hc1 : st1.searchCache = [] := by
      have := ensureConnected_cache cfg w st hcache
      rw [hE] at this
      exact this
    have hhit : freshCacheHit st1.searchCache (cacheKeyOf cfg text incP incS) w.now
        = none := by
      rw [hc1]; rfl
    rcases hP : personalPass cfg w text incP cfg.maxSearchResults with ⟨pes, pevs⟩
    rcases hS : sharedPass cfg w st1 text incS
        (cfg.maxSearchResults - (pes.length : Int)) with ⟨ses, st3, sevs⟩
    rcases hsort : sortDescE (fun a b => skCmp (clientSortKey a) (clientSortKey b))
        (pes ++ ses) with er | sorted
    · simp only [hok, Bool.not_true, Bool.false_eq_true, if_false, hhit, hP, hS,
        hsort] at heq
      simp at heq
    · simp only [hok, Bool.not_true, Bool.false_eq_true, if_false, hhit, hP, hS,
        hsort] at heq
      simp only [Prod.mk.injEq] at heq
      obtain ⟨h1, -, -⟩ := heq
      have hl : l = pySliceTo cfg.maxSearchResults sorted := by
        have := h1
        injection this with h2
        exact h2.symm
      have hperm : sorted.Perm (pes ++ ses) :=
        sortDescE_perm_main _ _ _ hsort
      have hsub : l.Sublist sorted := by
        rw [hl]; exact pySliceTo_sublist _ _
      have hPinv := personalPass_inv cfg w text incP cfg.maxSearchResults
      rw [hP] at hPinv
      have hSinv := sharedPass_inv cfg w st1 text incS
        (cfg.maxSearchResults - (pes.length : Int))
      rw [hS] at hSinv
      have hmem : ∀ r ∈ l, r ∈ pes ∨ r ∈ ses := by
        intro r hr
        have : r ∈ pes ++ ses := hperm.subset (hsub.subset hr)
        exact List.mem_append.mp this
      refine ⟨?_, ?_, ?_, ?_⟩
      · by_cases hm : 0 ≤ cfg.maxSearchResults
        · rw [hl]
          unfold pySliceTo
          rw [if_pos hm]
          have := List.length_take_le cfg.maxSearchResults.toNat sorted
          have h2 : (((sorted.take cfg.maxSearchResults.toNat).length : Nat) : Int)
              ≤ ((cfg.maxSearchResults.toNat : Nat) : Int) := by
            exact_mod_cast this
          rw [Int.toNat_of_nonneg hm] at h2
          calc (((sorted.take cfg.maxSearchResults.toNat).length : Nat) : Int)
              ≤ cfg.maxSearchResults := h2
            _ ≤ max 0 cfg.maxSearchResults := le_max_right _ _
        · have hneg : cfg.maxSearchResults ≤ 0 := by omega
          have hpes : pes = [] := by
            have := personalPass_nonpos cfg w text incP cfg.maxSearchResults hneg
            rw [hP] at this
            exact this
          have hses : ses = [] := by
            have := sharedPass_nonpos cfg w st1 text incS
              (cfg.maxSearchResults - (pes.length : Int)) (by simp [hpes]; omega)
            rw [hS] at this
            exact this
          have hsor : sorted = [] := by
            have := hperm
            rw [hpes, hses] at this
            exact this.eq_nil
          have : l = [] := by
            rw [hsor] at hsub
            exact List.sublist_nil.mp hsub
          rw [this]
          simp
      · have hfP : (pes ++ ses).filter
            (fun r => r.mailbox_type = Pyv.val "personal") = pes := by
          rw [List.filter_append]
          have e1 : pes.filter (fun r => r.mailbox_type = Pyv.val "personal")
              = pes :=
            List.filter_eq_self.mpr (fun r hr => by
              simp [(hPinv.1 r hr).1])
          have e2 : ses.filter (fun r => r.mailbox_type = Pyv.val "personal")
              = [] :=
            List.filter_eq_nil.mpr (fun r hr => by
              simp [(hSinv.1 r hr).1])
          rw [e1, e2, List.append_nil]
        have hchain : ((l.filter
            (fun r => r.mailbox_type = Pyv.val "personal")).map idStr).Sublist
            (((sorted.filter (fun r => r.mailbox_type = Pyv.val "personal")).map
              idStr)) :=
          (hsub.filter _).map idStr
        have hchain2 : ((sorted.filter
            (fun r => r.mailbox_type = Pyv.val "personal")).map idStr).Perm
            (pes.map idStr) := by
          have := (hperm.filter (fun r => r.mailbox_type = Pyv.val "personal")).map
            idStr
          rw [hfP] at this
          exact this
        exact ((hchain2.nodup_iff).mpr hPinv.2).sublist hchain
      · have hfS : (pes ++ ses).filter
            (fun r => r.mailbox_type = Pyv.val "shared") = ses := by
          rw [List.filter_append]
          have e1 : pes.filter (fun r => r.mailbox_type = Pyv.val "shared")
              = [] :=
            List.filter_eq_nil.mpr (fun r hr => by
              simp [(hPinv.1 r hr).1])
          have e2 : ses.filter (fun r => r.mailbox_type = Pyv.val "shared")
              = ses :=
            List.filter_eq_self.mpr (fun r hr => by
              simp [(hSinv.1 r hr).1])
          rw [e1, e2, List.nil_append]
        have hchain : ((l.filter
            (fun r => r.mailbox_type = Pyv.val "shared")).map idStr).Sublist
            (((sorted.filter (fun r => r.mailbox_type = Pyv.val "shared")).map
              idStr)) :=
          (hsub.filter _).map idStr
        have hchain2 : ((sorted.filter
            (fun r => r.mailbox_type = Pyv.val "shared")).map idStr).Perm
            (ses.map idStr) := by
          have := (hperm.filter (fun r => r.mailbox_type = Pyv.val "shared")).map
            idStr
          rw [hfS] at this
          exact this
        exact ((hchain2.nodup_iff).mpr hSinv.2).sublist hchain
      · intro r hr
        rcases hmem r hr with h | h
        · exact (hPinv.1 r h).2.2
        · exact (hSinv.1 r h).2.2
  · simp only [hok] at heq
    simp at heq
    obtain ⟨h1, -, -⟩ := heq
    have hl : l = [] := by
      cases h1
      rfl
    rw [hl]
    refine ⟨by simp [le_max_left], by simp, by simp, by simp⟩

/-- Witness for C2_amended at the duplicate-id world (empty-cache state). -/
theorem C2_amended_witness :
    connectedState.searchCache = [] ∧
    (((resultList (searchEmails sharedCfg dupWorld connectedState "hello" true
        true)).filter (fun r => r.mailbox_type = Pyv.val "personal")).map
      idStr).Nodup :=
  ⟨rfl,
   (C2_amended sharedCfg dupWorld connectedState "hello" true true rfl
     (resultList (searchEmails sharedCfg dupWorld connectedState "hello" true true))
     (searchEmails sharedCfg dupWorld connectedState "hello" true true).2.1
     (searchEmails sharedCfg dupWorld connectedState "hello" true true).2.2
     (by decide)).2.1⟩

/-- Provenance: every record of a successful cache-miss search came from the
personal pass or from the shared pass. -/
theorem searchEmails_result_mem (cfg : Config) (w : World) (st : ClientState)
    (text : String) (incP incS : Bool) (hcache : st.searchCache = []) :
    ∀ l st2 evs, searchEmails cfg w st text incP incS = (.ok l, st2, evs) →
      ∀ r ∈ l, r ∈ (personalPass cfg w text incP cfg.maxSearchResults).1 ∨
        r ∈ (sharedPass cfg w ((ensureConnected cfg w st).2.1) text incS
          (cfg.maxSearchResults -
            ((personalPass cfg w text incP cfg.maxSearchResults).1.length : Int))).1 := by
  intro l st2 evs heq
  unfold searchEmails at heq
  rcases hE : ensureConnected cfg w st with ⟨ok, st1, ev1⟩
  rw [hE] at heq
  by_cases hok : ok
  · have hc1 : st1.searchCache = [] := by
      have := ensureConnected_cache cfg w st hcache
      rw [hE] at this
      exact this
    have hhit : freshCacheHit st1.searchCache (cacheKeyOf cfg text incP incS) w.now
        = none := by
      rw [hc1]; rfl
    rcases hP : personalPass cfg w text incP cfg.maxSearchResults with ⟨pes, pevs⟩
    rcases hS : sharedPass cfg w st1 text incS
        (cfg.maxSearchResults - (pes.length : Int)) with ⟨ses, st3, sevs⟩
    rcases hsort : sortDescE (fun a b => skCmp (clientSortKey a) (clientSortKey b))
        (pes ++ ses) with er | sorted
    · simp only [hok, Bool.not_true, Bool.false_eq_true, if_false, hhit, hP, hS,
        hsort] at heq
      simp at heq
    · simp only [hok, Bool.not_true, Bool.false_eq_true, if_false, hhit, hP, hS,
        hsort] at heq
      simp only [Prod.mk.injEq] at heq
      obtain ⟨h1, -, -⟩ := heq
      have hl : l = pySliceTo cfg.maxSearchResults sorted := by
        injection h1 with h2
        exact h2.symm
      have hperm : sorted.Perm (pes ++ ses) := sortDescE_perm_main _ _ _ hsort
      have hsub : l.Sublist sorted := by
        rw [hl]; exact pySliceTo_sublist _ _
      intro r hr
      have : r ∈ pes ++ ses := hperm.subset (hsub.subset hr)
      exact List.mem_append.mp this
  · simp only [hok] at heq
    simp at heq
    obtain ⟨h1, -, -⟩ := heq
    have hl : l = [] := by
      cases h1
      rfl
    intro r hr
    rw [hl] at hr
    simp at hr

/-! ## C10: extracted records always carry a timestamp -/

/-- Claim C10, confirmed.  Every record produced by _extract_email_data carries a
received_time (when the item has no ReceivedTime attribute, the naive wall-clock
datetime.now() is substituted), and consequently every record returned by
search_emails from a state with an empty result cache carries a present
timestamp — the sort-default datetime.min case cannot arise for records this
extraction produced. -/
theorem C10_confirmed :
    (∀ (cfg : Config) (w : World) (it : Item) (fn mt : String) (r : MailRecord),
        extractEmailData cfg w it fn mt = some r →
        ∃ d, r.received_time = Pyv.val d) ∧
    (∀ (cfg : Config) (w : World) (it : Item) (fn mt : String) (r : MailRecord),
        it.receivedTime = none → extractEmailData cfg w it fn mt = some r →
        r.received_time = Pyv.val (.naive w.now)) ∧
    (∀ (cfg : Config) (w : World) (st : ClientState) (text : String)
        (incP incS : Bool), st.searchCache = [] →
        ∀ r ∈ resultList (searchEmails cfg w st text incP incS),
          ∃ d, r.received_time = Pyv.val d) := by
  refine ⟨?_, ?_, ?_⟩
  · intro cfg w it fn mt r h
    exact (extract_fields cfg w it fn mt r h).2.2
  · intro cfg w it fn mt r hrt h
    exact extract_now_fallback cfg w it fn mt r hrt h
  · intro cfg w st text incP incS hcache r hr
    unfold resultList at hr
    rcases hres : searchEmails cfg w st text incP incS with ⟨res, st2, evs⟩
    rcases hrr : res with er | l
    · rw [hres, hrr] at hr
      simp at hr
    · rw [hres, hrr] at hr
      simp only at hr
      have hmem := searchEmails_result_mem cfg w st text incP incS hcache l st2 evs
        (by rw [hres, hrr])
      rcases hmem r hr with h | h
      · exact ((personalPass_inv cfg w text incP cfg.maxSearchResults).1 r h).2.1
      · exact ((sharedPass_inv cfg w _ text incS _).1 r h).2.1

/-- Witness for C10_confirmed at the concrete two-store world. -/
theorem C10_witness :
    connectedState.searchCache = [] ∧
    ∀ r ∈ resultList (searchEmails sharedCfg dupWorld connectedState "hello" true
      true), ∃ d, r.received_time = Pyv.val d :=
  ⟨rfl,
   C10_confirmed.2.2 sharedCfg dupWorld connectedState "hello" true true rfl⟩

/-! ## C7: participant ranking under permutation -/

theorem touchStat_counts (st : PStat) (n e : Option String) (role : Role) :
    ((touchStat st n e role).sent, (touchStat st n e role).toCnt,
      (touchStat st n e role).ccCnt) =
    (st.sent, st.toCnt, st.ccCnt) + roleDelta role := by
  cases role <;>
    simp only [touchStat, roleDelta] <;>
      split_ifs <;> simp [Prod.mk_add_mk]

theorem countsAt_touchMap (m : List (String × PStat)) (k0 : String)
    (n e : Option String) (role : Role) (k : String) :
    countsAt (touchMap m k0 n e role) k =
      countsAt m k +
        (if k0 = k then roleDelta role else ((0, 0, 0) : Nat × Nat × Nat)) := by
  induction m with
  | nil =>
      by_cases hk : k0 = k <;>
        simp [touchMap, countsAt, List.find?, hk, touchStat_counts]
  | cons p rest ih =>
      rcases p with ⟨k1, s1⟩
      by_cases h1 : k1 = k0
      · subst h1
        have e3 : touchMap ((k1, s1) :: rest) k1 n e role
            = (k1, touchStat s1 n e role) :: rest := by
          simp [touchMap]
        by_cases h2 : k1 = k
        · subst h2
          have e1 : countsAt ((k1, touchStat s1 n e role) :: rest) k1
              = ((touchStat s1 n e role).sent, (touchStat s1 n e role).toCnt,
                  (touchStat s1 n e role).ccCnt) := by
            simp [countsAt, List.find?]
          have e2 : countsAt ((k1, s1) :: rest) k1
              = (s1.sent, s1.toCnt, s1.ccCnt) := by
            simp [countsAt, List.find?]
          rw [e3, e1, e2, if_pos rfl]
          exact touchStat_counts s1 n e role
        · have e1 : countsAt ((k1, touchStat s1 n e role) :: rest) k
              = countsAt rest k := by
            simp [countsAt, List.find?, h2]
          have e2 : countsAt ((k1, s1) :: rest) k = countsAt rest k := by
            simp [countsAt, List.find?, h2]
          rw [e3, e1, e2, if_neg (fun hcon : k1 = k => h2 hcon)]
          show _ = _ + (0 : Nat × Nat × Nat)
          rw [add_zero]
      · have e3 : touchMap ((k1, s1) :: rest) k0 n e role
            = (k1, s1) :: touchMap rest k0 n e role := by
          simp [touchMap, h1]
        by_cases h2 : k1 = k
        · subst h2
          have e1 : countsAt ((k1, s1) :: touchMap rest k0 n e role) k1
              = (s1.sent, s1.toCnt, s1.ccCnt) := by
            simp [countsAt, List.find?]
          have e2 : countsAt ((k1, s1) :: rest) k1
              = (s1.sent, s1.toCnt, s1.ccCnt) := by
            simp [countsAt, List.find?]
          rw [e3, e1, e2, if_neg (fun hcon : k0 = k1 => h1 hcon.symm)]
          show _ = _ + (0 : Nat × Nat × Nat)
          rw [add_zero]
        · have e1 : countsAt ((k1, s1) :: touchMap rest k0 n e role) k
              = countsAt (touchMap rest k0 n e role) k := by
            simp [countsAt, List.find?, h2]
          have e2 : countsAt ((k1, s1) :: rest) k = countsAt rest k := by
            simp [countsAt, List.find?, h2]
          rw [e3, e1, e2, ih]

theorem countsAt_applyTouches :
    ∀ (ts : List (String × Option String × Option String × Role))
      (m : List (String × PStat)) (k : String),
      countsAt (applyTouches ts m) k = countsAt m k + touchDelta ts k := by
  intro ts
  induction ts with
  | nil =>
      intro m k
      simp [applyTouches, touchDelta]
  | cons t ts ih =>
      intro m k
      have h1 : applyTouches (t :: ts) m =
          applyTouches ts (touchMap m t.1 t.2.1 t.2.2.1 t.2.2.2) := rfl
      rw [h1, ih, countsAt_touchMap]
      have h2 : touchDelta (t :: ts) k =
          (if t.1 = k then roleDelta t.2.2.2 else ((0, 0, 0) : Nat × Nat × Nat)) +
            touchDelta ts k := by
        simp [touchDelta]
      rw [h2, add_assoc]

theorem getD_some_of_notNone {α : Type} (p : Pyv α) (d : α)
    (h : p.notNone = true) : ∃ v, p.getD d = some v := by
  cases p <;> simp_all [Pyv.getD, Pyv.notNone]

theorem recipList_some (p : Pyv (List RecipEntry)) (h : recipListClean p = true) :
    ∃ l, p.getD [] = some l ∧ l.all RecipEntry.cleanB = true := by
  cases p <;> simp_all [recipListClean, Pyv.getD]

theorem lowerKeyOf_ok (s t : String) :
    ∃ k, lowerKeyOf (some s) (some t) = .ok k := by
  unfold lowerKeyOf pyOrStr
  by_cases hs : s = "" <;> simp [hs]

theorem recipKeyParts_clean (entry : RecipEntry) (h : entry.cleanB = true) :
    ∃ a b, recipKeyParts entry = (some a, some b) := by
  cases entry with
  | rdict n e =>
      simp only [RecipEntry.cleanB, Bool.and_eq_true] at h
      obtain ⟨hn, he⟩ := h
      cases n with
      | pynone => simp [Pyv.notNone] at hn
      | absent =>
          cases e with
          | pynone => simp [Pyv.notNone] at he
          | absent => exact ⟨"", "", rfl⟩
          | val v => exact ⟨v, "", rfl⟩
      | val u =>
          cases e with
          | pynone => simp [Pyv.notNone] at he
          | absent => exact ⟨"", u, rfl⟩
          | val v => exact ⟨v, u, rfl⟩
  | other s => exact ⟨"", s, rfl⟩

theorem recipTouches_ok (role : Role) :
    ∀ (l : List RecipEntry), l.all RecipEntry.cleanB = true →
      ∃ ts, recipTouches role l = .ok ts := by
  intro l
  induction l with
  | nil => intro h; exact ⟨[], rfl⟩
  | cons entry rest ih =>
      intro h
      simp only [List.all_cons, Bool.and_eq_true] at h
      obtain ⟨h1, h2⟩ := h
      obtain ⟨a, b, hab⟩ := recipKeyParts_clean entry h1
      obtain ⟨k, hk⟩ := lowerKeyOf_ok a b
      obtain ⟨ts, hts⟩ := ih h2
      refine ⟨(k, some b, some a, role) :: ts, ?_⟩
      unfold recipTouches
      rw [hab]
      simp only [Except.bind, bind, hk, hts]
      rfl

theorem touchesOfRecord_ok (e : MailRecord) (h : cleanRecord e = true) :
    ∃ ts, touchesOfRecord e = .ok ts := by
  unfold cleanRecord at h
  simp only [Bool.and_eq_true] at h
  obtain ⟨⟨⟨⟨⟨⟨⟨⟨⟨⟨⟨⟨⟨⟨hsub, hsn⟩, hse⟩, hto⟩, hcc⟩, hrec⟩, hrt⟩, hfn⟩,
    hmt⟩, himp⟩, hbody⟩, hsize⟩, hatt⟩, hunread⟩, heid⟩ := h
  obtain ⟨sE, hsE⟩ := getD_some_of_notNone e.sender_email "" hse
  obtain ⟨sN, hsN⟩ := getD_some_of_notNone e.sender_name "Unknown" hsn
  obtain ⟨sk, hsk⟩ := by
    have := lowerKeyOf_ok sE sN
    exact this
  obtain ⟨tos, htos, htosc⟩ := recipList_some e.to_recipients hto
  obtain ⟨ccs, hccs, hccsc⟩ := recipList_some e.cc_recipients hcc
  obtain ⟨tts, htts⟩ := recipTouches_ok Role.to tos htosc
  obtain ⟨cts, hcts⟩ := recipTouches_ok Role.cc ccs hccsc
  refine ⟨(sk, some sN, some sE, Role.sent) ::
    (tts.filter (fun t => t.1 ≠ "") ++ cts.filter (fun t => t.1 ≠ "")), ?_⟩
  unfold touchesOfRecord
  simp only [hsE, hsN, hsk, htos, hccs, Except.bind, bind, htts, hcts]
  rfl

theorem participantStats_aux :
    ∀ (l : List MailRecord) (m : List (String × PStat)),
      (∀ e ∈ l, cleanRecord e = true) →
      ∃ s, List.foldlM (fun m e => do
          let ts ← touchesOfRecord e
          return applyTouches ts m) m l = .ok s ∧
        ∀ k, countsAt s k = countsAt m k + (l.map (fun e => recDelta e k)).sum := by
  intro l
  induction l with
  | nil =>
      intro m h
      refine ⟨m, rfl, ?_⟩
      intro k
      simp
  | cons e rest ih =>
      intro m h
      obtain ⟨ts, hts⟩ := touchesOfRecord_ok e (h e (List.mem_cons_self _ _))
      obtain ⟨s, hs, hcount⟩ := ih (applyTouches ts m)
        (fun x hx => h x (List.mem_cons_of_mem _ hx))
      refine ⟨s, ?_, ?_⟩
      · simp only [List.foldlM, hts, Except.bind, bind]
        exact hs
      · intro k
        rw [hcount k, countsAt_applyTouches]
        have hrd : recDelta e k = touchDelta ts k := by
          unfold recDelta
          rw [hts]
        simp only [List.map_cons, List.sum_cons, hrd]
        rw [add_assoc]

theorem participantStats_counts (l : List MailRecord)
    (h : ∀ e ∈ l, cleanRecord e = true) :
    ∃ s, participantStats l = .ok s ∧
      ∀ k, countsAt s k = (l.map (fun e => recDelta e k)).sum := by
  obtain ⟨s, hs, hc⟩ := participantStats_aux l [] h
  refine ⟨s, hs, ?_⟩
  intro k
  have := hc k
  simpa [countsAt, List.find?] using this

theorem getParticipants_ok (l : List MailRecord)
    (h : ∀ e ∈ l, cleanRecord e = true) :
    ∃ ps, getParticipants l = .ok ps := by
  obtain ⟨s, hs, -⟩ := participantStats_counts l h
  exact ⟨_, by
    unfold getParticipants
    rw [hs]
    rfl⟩

theorem getParticipants_sum (l : List MailRecord) (ps : List Participant)
    (p : Participant) (h : getParticipants l = .ok ps) (hp : p ∈ ps) :
    p.sent + p.to_count + p.cc_count = p.participation_count := by
  unfold getParticipants at h
  rcases hs : participantStats l with er | s
  · rw [hs] at h
    simp [Except.bind, bind] at h
  · rw [hs] at h
    simp only [Except.bind, bind, pure, Except.pure, Except.ok.injEq] at h
    rw [← h] at hp
    have hp2 := List.mem_of_mem_take hp
    rcases List.mem_map.mp hp2 with ⟨info, -, hinfo⟩
    rw [← hinfo]

/-- Claim C7 counterexample.  Twenty-one distinct senders, each appearing once:
rotating the last record to the front permutes the input but changes which
twenty participants survive the top-20 cut (ties are broken by stats-dict
insertion order, which follows record order), so the top-20 membership is NOT
permutation-invariant as claimed. -/
theorem C7_counterexample :
    perm21a.Perm perm21b ∧
    some "t" ∈ partEmails (getParticipants perm21a) ∧
    some "t" ∉ partEmails (getParticipants perm21b) ∧
    some "u" ∈ partEmails (getParticipants perm21b) := by
  refine ⟨?_, by decide, by decide, by decide⟩
  exact List.perm_append_singleton _ _

/-- Claim C7, amended.  For permuted clean inputs the per-key totals of the stats
dict agree (participant counting is order-independent), and every emitted
participant satisfies sent + to_count + cc_count = participation_count; the set of
emitted top-20 participants, however, may change under permutation when totals tie
at the cutoff. -/
theorem C7_amended (l1 l2 : List MailRecord) (hp : l1.Perm l2)
    (hc : ∀ e ∈ l1, cleanRecord e = true) :
    (∃ s1 s2, participantStats l1 = .ok s1 ∧ participantStats l2 = .ok s2 ∧
      ∀ k, countsAt s1 k = countsAt s2 k) ∧
    (∀ ps p, getParticipants l1 = .ok ps → p ∈ ps →
      p.sent + p.to_count + p.cc_count = p.participation_count) := by
  constructor
  · have hc2 : ∀ e ∈ l2, cleanRecord e = true := fun e he =>
      hc e (hp.mem_iff.mpr he)
    obtain ⟨s1, hs1, hcnt1⟩ := participantStats_counts l1 hc
    obtain ⟨s2, hs2, hcnt2⟩ := participantStats_counts l2 hc2
    refine ⟨s1, s2, hs1, hs2, ?_⟩
    intro k
    rw [hcnt1 k, hcnt2 k]
    exact (hp.map (fun e => recDelta e k)).sum_eq
  · intro ps p h hmem
    exact getParticipants_sum l1 ps p h hmem

/-- Witness for C7_amended at a two-record permuted pair. -/
theorem C7_amended_witness :
    ((mkSender "a" :: [mkSender "b"]).Perm (mkSender "b" :: [mkSender "a"]) ∧
      (∀ e ∈ (mkSender "a" :: [mkSender "b"]), cleanRecord e = true)) ∧
    (∃ s1 s2, participantStats (mkSender "a" :: [mkSender "b"]) = .ok s1 ∧
      participantStats (mkSender "b" :: [mkSender "a"]) = .ok s2 ∧
      ∀ k, countsAt s1 k = countsAt s2 k) :=
  ⟨⟨by decide, by decide⟩,
   (C7_amended (mkSender "a" :: [mkSender "b"]) (mkSender "b" :: [mkSender "a"])
     (by decide) (by decide)).1⟩

/-! ## C6: totality of the formatter component -/

theorem insertAscLe_perm {α : Type} (le : α → α → Bool) (x : α) (l : List α) :
    (insertAscLe le x l).Perm (x :: l) := by
  induction l with
  | nil => simp [insertAscLe]
  | cons y ys ih =>
      unfold insertAscLe
      by_cases h : le y x
      · rw [if_pos h]
        exact (List.Perm.cons y ih).trans (List.Perm.swap x y ys)
      · rw [if_neg h]

theorem sortAscLe_fold_perm {α : Type} (le : α → α → Bool) (l acc : List α) :
    (l.foldl (fun acc x => insertAscLe le x acc) acc).Perm (acc ++ l) := by
  induction l generalizing acc with
  | nil => simp
  | cons x xs ih =>
      rw [List.foldl_cons]
      exact (ih (insertAscLe le x acc)).trans
        ((List.Perm.append_right xs (insertAscLe_perm le x acc)).trans
          List.perm_middle.symm)

theorem sortAscLe_perm {α : Type} (le : α → α → Bool) (l : List α) :
    (sortAscLe le l).Perm l := by
  simpa [sortAscLe] using sortAscLe_fold_perm le l []

theorem insertDescLe_perm {α : Type} (le : α → α → Bool) (x : α) (l : List α) :
    (insertDescLe le x l).Perm (x :: l) := by
  induction l with
  | nil => simp [insertDescLe]
  | cons y ys ih =>
      unfold insertDescLe
      by_cases h : le x y
      · rw [if_pos h]
        exact (List.Perm.cons y ih).trans (List.Perm.swap x y ys)
      · rw [if_neg h]

theorem sortDescLe_fold_perm {α : Type} (le : α → α → Bool) (l acc : List α) :
    (l.foldl (fun acc x => insertDescLe le x acc) acc).Perm (acc ++ l) := by
  induction l generalizing acc with
  | nil => simp
  | cons x xs ih =>
      rw [List.foldl_cons]
      exact (ih (insertDescLe le x acc)).trans
        ((List.Perm.append_right xs (insertDescLe_perm le x acc)).trans
          List.perm_middle.symm)

theorem sortDescLe_perm {α : Type} (le : α → α → Bool) (l : List α) :
    (sortDescLe le l).Perm l := by
  simpa [sortDescLe] using sortDescLe_fold_perm le l []

theorem mapE_ok {α β : Type} (f : α → Except String β) (l : List α)
    (h : ∀ a ∈ l, ∃ b, f a = .ok b) :
    ∃ bs, mapE f l = .ok bs ∧ bs.length = l.length ∧
      ∀ b ∈ bs, ∃ a, a ∈ l ∧ f a = .ok b := by
  induction l with
  | nil => exact ⟨[], rfl, rfl, by simp⟩
  | cons a as ih =>
      obtain ⟨b, hb⟩ := h a (by simp)
      obtain ⟨bs, hbs, hlen, hmem⟩ := ih (fun x hx => h x (by simp [hx]))
      refine ⟨b :: bs, ?_, by simp [hlen], ?_⟩
      · unfold mapE
        rw [hb, hbs]
        rfl
      · intro c hc
        rcases List.mem_cons.mp hc with h1 | h1
        · exact ⟨a, by simp, by rw [h1]; exact hb⟩
        · obtain ⟨x, hx1, hx2⟩ := hmem c h1
          exact ⟨x, by simp [hx1], hx2⟩

theorem bindE_ok {α β : Type} {x : Except String α} {a : α}
    {f : α → Except String β} (h : x = .ok a) (h2 : ∃ r, f a = .ok r) :
    ∃ r, (x >>= f) = .ok r := by
  obtain ⟨r, hr⟩ := h2
  exact ⟨r, by rw [h]; simpa [Except.bind, bind] using hr⟩

theorem cleanRecord_subject (e : MailRecord) (h : cleanRecord e = true) :
    e.subject.notNone = true := by
  simp [cleanRecord] at h
  tauto

theorem cleanRecord_size (e : MailRecord) (h : cleanRecord e = true) :
    e.size.notNone = true := by
  simp [cleanRecord] at h
  tauto

theorem formatSingleEmail_ok (cfg : Config) (e : MailRecord)
    (h : e.size.notNone = true) :
    ∃ f, formatSingleEmail cfg e = .ok f := by
  obtain ⟨n, hn⟩ := getD_some_of_notNone e.size 0 h
  exact ⟨_, by unfold formatSingleEmail; rw [hn]; rfl⟩

theorem formatSingleEmail_rt (cfg : Config) (e : MailRecord) (f : FormattedEmail)
    (heq : formatSingleEmail cfg e = .ok f)
    (hts : cfg.includeTimestamps = true) (hrt : e.received_time.isVal = true) :
    f.received_time.isVal = true := by
  rcases hd : e.received_time with _ | _ | d <;> rw [hd] at hrt <;>
    simp [Pyv.isVal] at hrt
  unfold formatSingleEmail at heq
  rcases hsz : e.size with _ | _ | n <;> rw [hsz] at heq <;>
    simp [Pyv.getD, Except.bind, bind, pure, Except.pure] at heq
  · rw [← heq]
    simp [hts, hd, Pyv.get?, Pyv.isVal]
  · rw [← heq]
    simp [hts, hd, Pyv.get?, Pyv.isVal]

theorem addToGroup_inv (P : MailRecord → Prop)
    (m : List (String × List MailRecord)) (k : String) (e : MailRecord)
    (hm : ∀ kv ∈ m, kv.2 ≠ [] ∧ ∀ x ∈ kv.2, P x) (he : P e) :
    ∀ kv ∈ addToGroup m k e, kv.2 ≠ [] ∧ ∀ x ∈ kv.2, P x := by
  induction m with
  | nil =>
      intro kv hkv
      simp [addToGroup] at hkv
      rw [hkv]
      exact ⟨by simp, by simpa using he⟩
  | cons p rest ih =>
      obtain ⟨k0, v0⟩ := p
      intro kv hkv
      by_cases hk : k0 = k
      · rw [show addToGroup ((k0, v0) :: rest) k e = (k0, v0 ++ [e]) :: rest by
          simp [addToGroup, hk]] at hkv
        rcases List.mem_cons.mp hkv with h1 | h1
        · rw [h1]
          refine ⟨by simp, ?_⟩
          intro x hx
          rcases List.mem_append.mp hx with h2 | h2
          · exact (hm (k0, v0) (by simp)).2 x h2
          · rw [List.mem_singleton.mp h2]
            exact he
        · exact hm kv (by simp [h1])
      · rw [show addToGroup ((k0, v0) :: rest) k e = (k0, v0) :: addToGroup rest k e by
          simp [addToGroup, hk]] at hkv
        rcases List.mem_cons.mp hkv with h1 | h1
        · rw [h1]
          exact hm (k0, v0) (by simp)
        · exact ih (fun q hq => hm q (by simp [hq])) kv h1

theorem groupFold_ok (P : MailRecord → Prop) (l : List MailRecord) :
    ∀ m : List (String × List MailRecord),
    (∀ e ∈ l, e.subject.notNone = true) → (∀ e ∈ l, P e) →
    (∀ kv ∈ m, kv.2 ≠ [] ∧ ∀ x ∈ kv.2, P x) →
    ∃ g, (l.foldlM (fun conv e => do
        let subjRaw ← pyStrV (e.subject.getD "")
        let subject := pyStrip subjRaw
        let convKey := cleanSubjectKey subject
        return addToGroup conv convKey e) m :
          Except String (List (String × List MailRecord))) = .ok g ∧
      ∀ kv ∈ g, kv.2 ≠ [] ∧ ∀ x ∈ kv.2, P x := by
  induction l with
  | nil => exact fun m _ _ hm => ⟨m, rfl, hm⟩
  | cons e es ih =>
      intro m hsub hP hm
      obtain ⟨s, hs⟩ := getD_some_of_notNone e.subject "" (hsub e (by simp))
      have hstep : pyStrV (e.subject.getD "") = .ok s := by rw [hs]; rfl
      obtain ⟨g, hg, hginv⟩ := ih (addToGroup m (cleanSubjectKey (pyStrip s)) e)
        (fun x hx => hsub x (by simp [hx])) (fun x hx => hP x (by simp [hx]))
        (addToGroup_inv P m (cleanSubjectKey (pyStrip s)) e hm (hP e (by simp)))
      refine ⟨g, ?_, hginv⟩
      rw [List.foldlM_cons]
      simp only [hstep, Except.bind, bind, pure, Except.pure]
      exact hg

theorem groupByConversation_ok (emails : List MailRecord)
    (h : ∀ e ∈ emails, e.subject.notNone = true) :
    ∃ g, groupByConversation emails = .ok g ∧
      ∀ kv ∈ g, kv.2 ≠ [] ∧ ∀ x ∈ kv.2, x ∈ emails := by
  have h2 := groupFold_ok (fun x => x ∈ emails) emails [] h
    (fun e he => he) (by simp)
  unfold groupByConversation
  exact h2

theorem convTimes_ok (l : List FormattedEmail)
    (h : ∀ f ∈ l, f.received_time.isVal = true) :
    ∃ vs, (l.foldrM (fun e acc =>
      match e.received_time with
      | .absent => Except.error "KeyError: received_time"
      | .pynone => Except.ok acc
      | .val i => Except.ok (naiveVal (parseIsoTime (some i)) :: acc)) [] :
        Except String (List Nat)) = .ok vs ∧
      vs.length = l.length := by
  induction l with
  | nil => exact ⟨[], rfl, rfl⟩
  | cons f fs ih =>
      obtain ⟨vs, hvs, hlen⟩ := ih (fun x hx => h x (by simp [hx]))
      rcases hr : f.received_time with _ | _ | i
      · exact absurd (h f (by simp)) (by simp [hr, Pyv.isVal])
      · exact absurd (h f (by simp)) (by simp [hr, Pyv.isVal])
      · refine ⟨naiveVal (parseIsoTime (some i)) :: vs, ?_, by simp [hlen]⟩
        rw [List.foldrM_cons, hvs]
        simp [hr, Except.bind, bind]

theorem convSortKey_ok (l : List FormattedEmail) (hne : l ≠ [])
    (h : ∀ f ∈ l, f.received_time.isVal = true) :
    ∃ n, convSortKey l = .ok n := by
  obtain ⟨vs, hvs, hlen⟩ := convTimes_ok l h
  rcases vs with _ | ⟨v, vs⟩
  · exact absurd (List.length_eq_zero.mp hlen.symm) hne
  · exact ⟨_, by unfold convSortKey; rw [hvs]; rfl⟩

theorem convBuild_ok (cfg : Config) (hts : cfg.includeTimestamps = true)
    (kv : String × List MailRecord) (hne : kv.2 ≠ [])
    (hcl : ∀ x ∈ kv.2, cleanRecord x = true)
    (hrt : ∀ x ∈ kv.2, x.received_time.isVal = true) :
    ∃ c, (do
      let convEmails := sortAscLe
        (fun a b => TKey.le (sortKeyTime a false) (sortKeyTime b false)) kv.2
      let fEmails ← mapE (formatSingleEmail cfg) convEmails
      let ps ← getParticipants convEmails
      return ({
        conversation_id := kv.1
        email_count := convEmails.length
        date_range := getDateRange convEmails
        participants := ps
        emails := fEmails } : FormattedConv) : Except String FormattedConv) =
        .ok c ∧
      c.emails ≠ [] ∧ ∀ f ∈ c.emails, f.received_time.isVal = true := by
  set L := sortAscLe
    (fun a b => TKey.le (sortKeyTime a false) (sortKeyTime b false)) kv.2 with hL
  have hperm := sortAscLe_perm
    (fun a b => TKey.le (sortKeyTime a false) (sortKeyTime b false)) kv.2
  have hmem : ∀ x ∈ L, x ∈ kv.2 := fun x hx => hperm.mem_iff.mp hx
  have hLne : L ≠ [] := by
    intro h0
    have h1 := hperm.length_eq
    rw [show sortAscLe
        (fun a b => TKey.le (sortKeyTime a false) (sortKeyTime b false)) kv.2 = L
      from hL.symm, h0] at h1
    exact hne (List.length_eq_zero.mp h1.symm)
  obtain ⟨fs, hfs, hflen, hfmem⟩ := mapE_ok (formatSingleEmail cfg) L
    (fun x hx => formatSingleEmail_ok cfg x (cleanRecord_size x (hcl x (hmem x hx))))
  obtain ⟨ps, hps⟩ := getParticipants_ok L (fun x hx => hcl x (hmem x hx))
  refine ⟨{
    conversation_id := kv.1
    email_count := L.length
    date_range := getDateRange L
    participants := ps
    emails := fs }, ?_, ?_, ?_⟩
  · simp only [← hL, hfs, hps, Except.bind, bind, pure, Except.pure]
  · show fs ≠ []
    intro h0
    rw [h0] at hflen
    exact hLne (List.length_eq_zero.mp hflen.symm)
  · show ∀ f ∈ fs, f.received_time.isVal = true
    intro f hf
    obtain ⟨a, ha, heqa⟩ := hfmem f hf
    exact formatSingleEmail_rt cfg a f heqa hts (hrt a (hmem a ha))

/-- A record with a real subject and timestamp and every other key absent. -/
def w6Rec : MailRecord := { subject := .val "Hi", received_time := .val (.naive 3) }

/-- C6 counterexample: the formatter component is not total over incomplete
records.  format_email_chain raises ValueError on a single record whose keys are
all absent (the conversation sort key takes max of an empty comprehension),
format_single_email raises TypeError on a None size, and group_by_conversation
raises AttributeError on a None subject. -/
theorem C6_counterexample :
    cleanRecord emptyRec = true ∧
    formatEmailChain {} [emptyRec] "x" =
      .error "ValueError: max of empty sequence" ∧
    formatSingleEmail {} ({ size := .pynone } : MailRecord) =
      .error "TypeError: unsupported operand types for NoneType division" ∧
    groupByConversation [({ subject := .pynone } : MailRecord)] =
      .error "AttributeError: NoneType has no str methods" := by
  exact ⟨by decide, by decide, by decide, by decide⟩

/-- C6 (amended): over records none of whose present fields is None, with a real
received_time in every record and timestamps configured on, the formatter component
is total: group_by_conversation, format_single_email, get_participants and
format_email_chain all return normally (get_date_range and
get_mailbox_distribution are total over all inputs by construction). -/
theorem C6_amended (cfg : Config) (emails : List MailRecord) (s : String)
    (hts : cfg.includeTimestamps = true)
    (hc : ∀ e ∈ emails, cleanRecord e = true)
    (hrt : ∀ e ∈ emails, e.received_time.isVal = true) :
    (∃ g, groupByConversation emails = .ok g) ∧
    (∀ e ∈ emails, ∃ f, formatSingleEmail cfg e = .ok f) ∧
    (∃ ps, getParticipants emails = .ok ps) ∧
    (∃ r, formatEmailChain cfg emails s = .ok r) := by
  have hsubj : ∀ e ∈ emails, e.subject.notNone = true :=
    fun e he => cleanRecord_subject e (hc e he)
  have hsz : ∀ e ∈ emails, e.size.notNone = true :=
    fun e he => cleanRecord_size e (hc e he)
  obtain ⟨g, hg, hginv⟩ := groupByConversation_ok emails hsubj
  have hfse : ∀ e ∈ emails, ∃ f, formatSingleEmail cfg e = .ok f :=
    fun e he => formatSingleEmail_ok cfg e (hsz e he)
  obtain ⟨ps, hps⟩ := getParticipants_ok emails hc
  refine ⟨⟨g, hg⟩, hfse, ⟨ps, hps⟩, ?_⟩
  by_cases hemp : emails.isEmpty = true
  · exact ⟨_, by unfold formatEmailChain; rw [if_pos hemp]; rfl⟩
  · have hbuild : ∀ kv ∈ g, ∃ c, (do
        let convEmails := sortAscLe
          (fun a b => TKey.le (sortKeyTime a false) (sortKeyTime b false)) kv.2
        let fEmails ← mapE (formatSingleEmail cfg) convEmails
        let ps ← getParticipants convEmails
        return ({
          conversation_id := kv.1
          email_count := convEmails.length
          date_range := getDateRange convEmails
          participants := ps
          emails := fEmails } : FormattedConv) : Except String FormattedConv) =
          .ok c ∧
        c.emails ≠ [] ∧ ∀ f ∈ c.emails, f.received_time.isVal = true := by
      intro kv hkv
      obtain ⟨hne0, hmem0⟩ := hginv kv hkv
      exact convBuild_ok cfg hts kv hne0
        (fun x hx => hc x (hmem0 x hx)) (fun x hx => hrt x (hmem0 x hx))
    obtain ⟨fcs, hfcs, -, hfcmem⟩ := mapE_ok (fun kv => do
        let convEmails := sortAscLe
          (fun a b => TKey.le (sortKeyTime a false) (sortKeyTime b false)) kv.2
        let fEmails ← mapE (formatSingleEmail cfg) convEmails
        let ps ← getParticipants convEmails
        return ({
          conversation_id := kv.1
          email_count := convEmails.length
          date_range := getDateRange convEmails
          participants := ps
          emails := fEmails } : FormattedConv)) g
      (fun kv hkv => Exists.imp (fun c hc2 => hc2.1) (hbuild kv hkv))
    have hkeyprf : ∀ c ∈ fcs, ∃ b, (do
        let k ← convSortKey c.emails
        return (c, k) : Except String (FormattedConv × Nat)) = .ok b := by
      intro c hc2
      obtain ⟨kv, hkv, heqc⟩ := hfcmem c hc2
      obtain ⟨c0, heq0, hne0, hval0⟩ := hbuild kv hkv
      have hcc : c0 = c := Except.ok.inj (heq0.symm.trans heqc)
      rw [← hcc]
      obtain ⟨n, hn⟩ := convSortKey_ok c0.emails hne0 hval0
      exact ⟨(c0, n), by
        show convSortKey c0.emails >>= (fun k => pure (c0, k)) =
          Except.ok (c0, n)
        rw [hn]
        rfl⟩
    obtain ⟨keyed, hkeyed, -, -⟩ := mapE_ok (fun c => do
        let k ← convSortKey c.emails
        return (c, k)) fcs hkeyprf
    have hperm2 := sortDescLe_perm
      (fun a b => TKey.le (sortKeyTime a true) (sortKeyTime b true)) emails
    obtain ⟨allFmt, hallFmt, -, -⟩ := mapE_ok (formatSingleEmail cfg)
      (sortDescLe (fun a b => TKey.le (sortKeyTime a true) (sortKeyTime b true))
        emails)
      (fun x hx => formatSingleEmail_ok cfg x (hsz x (hperm2.mem_iff.mp hx)))
    have hfin : ∃ r, formatEmailChain cfg emails s = .ok r := by
      unfold formatEmailChain
      rw [if_neg hemp]
      exact bindE_ok hg (bindE_ok hps (bindE_ok hfcs
        (bindE_ok hkeyed (bindE_ok hallFmt ⟨_, rfl⟩))))
    exact hfin

/-- C6 witness: the amended totality theorem applied at a concrete one-record
input with a real subject and timestamp under the default configuration. -/
theorem C6_amended_witness :
    ((∀ e ∈ [w6Rec], cleanRecord e = true) ∧
      (∀ e ∈ [w6Rec], e.received_time.isVal = true)) ∧
    (∃ r, formatEmailChain {} [w6Rec] "hi" = .ok r) :=
  ⟨⟨by decide, by decide⟩,
   (C6_amended {} [w6Rec] "hi" rfl (by decide) (by decide)).2.2.2⟩


end OutlookMcp
